import Mathlib

/-!
Verification development for the Bulk Invoice extraction/validation engine.

The TypeScript source is shallowly embedded in Lean: JS numbers are modelled
as exact rationals (`ℚ`); the binary floating-point representation is
idealized away, matching the source's own intent of fixed-point money
arithmetic.  JS strings are modelled as `String`/`List Char`.  Fallible
parsing (`parseFloat` returning `NaN`) is modelled with `Option`.
-/

namespace BulkInvoice

/-! ### JS numeric primitives -/

/-- JS `Math.round`: round half toward positive infinity. -/
def jsRound (x : ℚ) : ℤ := ⌊x + 1/2⌋

/-- `Math.round(x*100)/100` — round to two decimal places, as used throughout
the amount verifier. -/
def round2 (x : ℚ) : ℚ := (jsRound (x * 100) : ℚ) / 100

/-- In the rational embedding of JS numbers there is no NaN value, so
`isNaN` is constantly false. -/
def jsIsNaN (_x : ℚ) : Bool := false

/-! ### Digit strings -/

/-- Character for a single decimal digit. -/
def digitChar (k : ℕ) : Char := Char.ofNat (48 + k)

/-- Decimal digit characters of a natural number, most significant first.
Structural recursion on a fuel argument so that the kernel can evaluate it;
fuel `n+1` always suffices. -/
def natDigitsAux : ℕ → ℕ → List Char
  | 0, _ => []
  | f + 1, n => if n < 10 then [digitChar n] else natDigitsAux f (n / 10) ++ [digitChar (n % 10)]

def natDigits (n : ℕ) : List Char := natDigitsAux (n + 1) n

def natToStr (n : ℕ) : String := ⟨natDigits n⟩

/-- JS digit class `\\d` = `[0-9]`, by code point. -/
def jsIsDigit (c : Char) : Bool := 48 ≤ c.toNat && c.toNat ≤ 57

/-- Value of a list of decimal digit characters (left fold). -/
def digitsToNat (l : List Char) : ℕ := l.foldl (fun a c => 10 * a + (c.toNat - 48)) 0

/-! ### JS character classes -/

/-- The JS `\s` class (also used by `String.prototype.trim`): space, tab,
line feed, vertical tab, form feed, carriage return, and the Unicode space
separators, written by code point. -/
def isJsWs (c : Char) : Bool :=
  c.toNat = 32 || c.toNat = 9 || c.toNat = 10 || c.toNat = 11 || c.toNat = 12 || c.toNat = 13 ||
  c.toNat = 0xA0 || c.toNat = 0x1680 ||
  (0x2000 ≤ c.toNat && c.toNat ≤ 0x200A) ||
  c.toNat = 0x2028 || c.toNat = 0x2029 || c.toNat = 0x202F ||
  c.toNat = 0x205F || c.toNat = 0x3000 || c.toNat = 0xFEFF

/-- The control characters stripped by the output sanitizer:
`[\x00-\x1F\x7F]`. -/
def isCtrlChar (c : Char) : Bool := c.toNat ≤ 0x1F || c.toNat = 0x7F

/-- ASCII lower-casing of one character (model of `toLowerCase` restricted to
the ASCII range actually exercised here). -/
def charLower (c : Char) : Char := c.toLower

def jsTrimLeft (l : List Char) : List Char := l.dropWhile isJsWs

def jsTrimRight (l : List Char) : List Char := (l.reverse.dropWhile isJsWs).reverse

/-- JS `String.prototype.trim`. -/
def jsTrimList (l : List Char) : List Char := jsTrimRight (jsTrimLeft l)

def jsTrim (s : String) : String := ⟨jsTrimList s.data⟩

def jsLower (s : String) : String := ⟨s.data.map charLower⟩

/-! ### JS `parseFloat`

Models the decimal core of `parseFloat`: leading whitespace is skipped, an
optional sign, then an integer part and an optional fractional part, the
longest such valid numeric literal winning.  `NaN` (no parsable number) is
`none`.  Exponent notation and `Infinity` are not produced by any string in
this development and are not modelled. -/

/-- The digits of a numeric literal after an optional sign: an integer part
and an optional `.`-led fractional part; at least one digit overall or the
parse is NaN (`none`). -/
def jsParseAfterSign (neg : Bool) (l2 : List Char) : Option ℚ :=
  let ip := l2.takeWhile jsIsDigit
  let r3 := l2.dropWhile jsIsDigit
  let fp := if r3.head? = some '.' then r3.tail.takeWhile jsIsDigit else []
  if ip.isEmpty && fp.isEmpty then none
  else
    some ((if neg then -1 else 1) *
      ((digitsToNat ip : ℚ) + (digitsToNat fp : ℚ) / 10 ^ fp.length))

def jsParseFloatL (l : List Char) : Option ℚ :=
  let l1 := l.dropWhile isJsWs
  if l1.head? = some '-' then jsParseAfterSign true l1.tail
  else if l1.head? = some '+' then jsParseAfterSign false l1.tail
  else jsParseAfterSign false l1

def jsParseFloat (s : String) : Option ℚ := jsParseFloatL s.data

/-! ### JS `Number.prototype.toString` and `toFixed(2)` -/

/-- Fractional decimal digits of `r / b` (`r < b`), produced by long
division; stops when the remainder reaches zero or the fuel runs out.
`JS` doubles have at most 1074 fractional digits, so fuel 1100 is a safe
model for every representable value. -/
def fracDigitsAux : ℕ → ℕ → ℕ → List Char
  | 0, _, _ => []
  | f + 1, r, b => if r = 0 then [] else digitChar (r * 10 / b) :: fracDigitsAux f (r * 10 % b) b

def toStringFuel : ℕ := 1100

/-- Model of `Number.prototype.toString` for numbers with a terminating
decimal expansion (all finite doubles): sign, integer digits, and the exact
fractional digits when nonzero. -/
def numToString (x : ℚ) : String :=
  let a := x.num.natAbs
  let b := x.den
  let ip := a / b
  let rem := a % b
  let core := natDigits ip ++ (if rem = 0 then [] else '.' :: fracDigitsAux toStringFuel rem b)
  ⟨(if x < 0 then ['-'] else []) ++ core⟩

/-- Two-digit rendering of `n % 100` for the cents part of `toFixed(2)`. -/
def twoDigitFrac (k : ℕ) : List Char := if k < 10 then ['0', digitChar k] else natDigits k

/-- Render a nonnegative amount of cents as a decimal string `d+.dd`. -/
def centsRender (n : ℕ) : List Char := natDigits (n / 100) ++ '.' :: twoDigitFrac (n % 100)

/-- Model of `Number.prototype.toFixed(2)`: per ECMA-262, the sign is split
off first and the magnitude is rendered from the integer closest to
`|x|*100`, ties resolved upward. -/
def toFixed2 (x : ℚ) : String :=
  ⟨(if x < 0 then ['-'] else []) ++ centsRender (jsRound (|x| * 100)).toNat⟩

/-! ### Data model (src/src/shared/types, src/src/shared/constants) -/

structure InvoiceLineItem where
  description : String
  quantity : ℚ
  unitAmount : ℚ
  accountCode : Option String
  taxType : Option String
deriving DecidableEq, Repr

structure ExtractedInvoice where
  invoiceNumber : String
  invoiceDate : String
  dueDate : String
  contactName : String
  reference : Option String
  lineItems : List InvoiceLineItem
  sourceFile : String
  extractionConfidence : ℚ
  warnings : List String
deriving DecidableEq, Repr

structure XeroCSVRow where
  ContactName : String
  InvoiceNumber : String
  InvoiceDate : String
  DueDate : String
  Description : String
  Quantity : String
  UnitAmount : String
  AccountCode : String
  TaxType : String
  Reference : String
deriving DecidableEq, Repr

structure ValidationError where
  field : String
  message : String
  row : Option ℕ
  invoiceNumber : Option String
deriving DecidableEq, Repr

structure ValidationWarning where
  field : String
  message : String
  row : Option ℕ
  invoiceNumber : Option String
deriving DecidableEq, Repr

structure ValidationResult where
  isValid : Bool
  errors : List ValidationError
  warnings : List ValidationWarning
deriving DecidableEq, Repr

/-- The canonical ten-column Xero schema, exact order. -/
def XERO_CSV_HEADERS : List String :=
  ["ContactName", "InvoiceNumber", "InvoiceDate", "DueDate", "Description",
   "Quantity", "UnitAmount", "AccountCode", "TaxType", "Reference"]

def REQUIRED_FIELDS : List String :=
  ["ContactName", "InvoiceNumber", "InvoiceDate", "DueDate"]

def DEFAULTS_QUANTITY : String := "1"
def DEFAULTS_ACCOUNT_CODE : String := "200"
def DEFAULTS_TAX_TYPE : String := "GST on Income"

/-- Dynamic field access `row[field]` for the ten known column names. -/
def getField (row : XeroCSVRow) (f : String) : String :=
  if f = "ContactName" then row.ContactName
  else if f = "InvoiceNumber" then row.InvoiceNumber
  else if f = "InvoiceDate" then row.InvoiceDate
  else if f = "DueDate" then row.DueDate
  else if f = "Description" then row.Description
  else if f = "Quantity" then row.Quantity
  else if f = "UnitAmount" then row.UnitAmount
  else if f = "AccountCode" then row.AccountCode
  else if f = "TaxType" then row.TaxType
  else if f = "Reference" then row.Reference
  else ""

/-! ### TemplateFormatter (src/src/modules/formatter/index.ts) -/

/-- One pass of the regex replacement `replace(/\s+/g, ' ')`: each maximal
whitespace run becomes a single space.  The boolean state records whether we
are inside a run already replaced. -/
def collapseGo : Bool → List Char → List Char
  | _, [] => []
  | inWs, c :: rest =>
    if isJsWs c then
      if inWs then collapseGo true rest else ' ' :: collapseGo true rest
    else c :: collapseGo false rest

def collapseWs (l : List Char) : List Char := collapseGo false l

/-- `replace(/[\x00-\x1F\x7F]/g, '')` — drop control characters. -/
def stripCtrl (l : List Char) : List Char := l.filter fun c => !isCtrlChar c

/-- `/^[=+\-@\t\r]/` — a leading character that can trigger spreadsheet
formula execution. -/
def dangerousStart (l : List Char) : Bool :=
  match l with
  | [] => false
  | c :: _ => c = '=' || c = '+' || c = '-' || c = '@' || c = '\t' || c = '\r'

/-- `TemplateFormatter.sanitizeField` on character lists: empty in, empty
out; otherwise trim, neutralize a dangerous first character with a leading
single quote, collapse whitespace runs, then strip control characters. -/
def sanitizeChars (l : List Char) : List Char :=
  if l = [] then []
  else
    let t := jsTrimList l
    let p := if dangerousStart t then '\'' :: t else t
    stripCtrl (collapseWs p)

def sanitizeField (s : String) : String := ⟨sanitizeChars s.data⟩

/-- `TemplateFormatter.formatNumber` — `value.toString()`, with the default
quantity on NaN (unreachable in the rational embedding). -/
def formatNumber (x : ℚ) : String :=
  if jsIsNaN x then DEFAULTS_QUANTITY else numToString x

/-- `TemplateFormatter.formatCurrency` — `value.toFixed(2)`, `"0.00"` on
NaN (unreachable in the rational embedding). -/
def formatCurrency (x : ℚ) : String :=
  if jsIsNaN x then "0.00" else toFixed2 x

/-- `TemplateFormatter.formatSingleInvoice`: one canonical row per line
item. -/
def formatSingleInvoice (invoice : ExtractedInvoice) : List XeroCSVRow :=
  invoice.lineItems.map fun lineItem =>
    { ContactName := sanitizeField invoice.contactName
      InvoiceNumber := sanitizeField invoice.invoiceNumber
      InvoiceDate := invoice.invoiceDate
      DueDate := invoice.dueDate
      Description := sanitizeField lineItem.description
      Quantity := formatNumber lineItem.quantity
      UnitAmount := formatCurrency lineItem.unitAmount
      AccountCode :=
        match lineItem.accountCode with
        | some a => if a = "" then DEFAULTS_ACCOUNT_CODE else a
        | none => DEFAULTS_ACCOUNT_CODE
      TaxType :=
        match lineItem.taxType with
        | some t => if t = "" then DEFAULTS_TAX_TYPE else t
        | none => DEFAULTS_TAX_TYPE
      Reference :=
        match invoice.reference with
        | some r => if r = "" then "" else sanitizeField r
        | none => "" }

/-! ### InvoiceValidator (src/src/modules/validation/index.ts) -/

/-- Leap year rule used by JS `Date`. -/
def isLeapYear (y : ℕ) : Bool := (y % 4 = 0 && y % 100 ≠ 0) || y % 400 = 0

/-- `new Date(year, month, 0).getDate()` — number of days in the (1-based)
month. -/
def daysInMonth (month year : ℕ) : ℕ :=
  if month = 2 then (if isLeapYear year then 29 else 28)
  else if month = 4 || month = 6 || month = 9 || month = 11 then 30
  else 31

/-- `InvoiceValidator.isValidAustralianDate`: exact `DD/MM/YYYY` shape, then
range checks and the month-specific day count. -/
def isValidAustralianDate (dateStr : String) : Bool :=
  match dateStr.data with
  | [d1, d2, s1, m1, m2, s2, y1, y2, y3, y4] =>
    if jsIsDigit d1 && jsIsDigit d2 && s1 = '/' && jsIsDigit m1 && jsIsDigit m2 && s2 = '/' &&
        jsIsDigit y1 && jsIsDigit y2 && jsIsDigit y3 && jsIsDigit y4 then
      let day := digitsToNat [d1, d2]
      let month := digitsToNat [m1, m2]
      let year := digitsToNat [y1, y2, y3, y4]
      if month < 1 || month > 12 then false
      else if day < 1 || day > 31 then false
      else if year < 1900 || year > 2100 then false
      else decide (day ≤ daysInMonth month year)
    else false
  | _ => false

/-- The required-field loop of `validateCSVRow`: `!row[field] ||
row[field].trim() === ''` is an error. -/
def reqFieldErrors (row : XeroCSVRow) (rowIndex : ℕ) : List ValidationError :=
  REQUIRED_FIELDS.filterMap fun f =>
    if getField row f = "" || jsTrim (getField row f) = "" then
      some ⟨f, "Required field " ++ f ++ " is empty", some rowIndex, none⟩
    else none

/-- `row.InvoiceDate && !isValidAustralianDate(row.InvoiceDate)` — the date
check runs only on a non-empty (truthy) field. -/
def invDateErrors (row : XeroCSVRow) (rowIndex : ℕ) : List ValidationError :=
  if row.InvoiceDate ≠ "" && !isValidAustralianDate row.InvoiceDate then
    [⟨"InvoiceDate", "Invalid date format: " ++ row.InvoiceDate, some rowIndex, none⟩]
  else []

def dueDateErrors (row : XeroCSVRow) (rowIndex : ℕ) : List ValidationError :=
  if row.DueDate ≠ "" && !isValidAustralianDate row.DueDate then
    [⟨"DueDate", "Invalid date format: " ++ row.DueDate, some rowIndex, none⟩]
  else []

def qtyErrors (row : XeroCSVRow) (rowIndex : ℕ) : List ValidationError :=
  if row.Quantity ≠ "" && (jsParseFloat row.Quantity).isNone then
    [⟨"Quantity", "Invalid quantity: " ++ row.Quantity, some rowIndex, none⟩]
  else []

def uaErrors (row : XeroCSVRow) (rowIndex : ℕ) : List ValidationError :=
  if row.UnitAmount ≠ "" && (jsParseFloat row.UnitAmount).isNone then
    [⟨"UnitAmount", "Invalid unit amount: " ++ row.UnitAmount, some rowIndex, none⟩]
  else []

/-- `InvoiceValidator.validateCSVRow`: required-field presence, date shape
for the two date columns when non-empty, numeric parseability of the two
numeric columns when non-empty, in the source's push order. -/
def validateCSVRow (row : XeroCSVRow) (rowIndex : ℕ) : ValidationResult :=
  let errors := reqFieldErrors row rowIndex ++ invDateErrors row rowIndex ++
    dueDateErrors row rowIndex ++ qtyErrors row rowIndex ++ uaErrors row rowIndex
  ⟨errors.isEmpty, errors, []⟩

/-- `InvoiceValidator.validateCSVHeaders`: a count-mismatch error plus one
error per position whose header differs from the canonical one
(`headers[i]` past the end reads as `undefined`, reported as `"missing"`;
an empty actual header is falsy in JS and is also reported as
`"missing"`). -/
def validateCSVHeaders (headers : List String) : ValidationResult :=
  let lengthErrors :=
    if headers.length ≠ XERO_CSV_HEADERS.length then
      [⟨"Headers",
        "Expected " ++ natToStr XERO_CSV_HEADERS.length ++ " columns, found " ++
          natToStr headers.length, none, none⟩]
    else []
  let colErrors := (List.range XERO_CSV_HEADERS.length).filterMap fun i =>
    let expected := XERO_CSV_HEADERS.getD i ""
    match headers.get? i with
    | some a =>
      if a = expected then none
      else some ⟨"Headers",
        "Column " ++ natToStr (i + 1) ++ " should be \"" ++ expected ++ "\", found \"" ++
          (if a = "" then "missing" else a) ++ "\"", none, none⟩
    | none =>
      some ⟨"Headers",
        "Column " ++ natToStr (i + 1) ++ " should be \"" ++ expected ++ "\", found \"missing\"",
        none, none⟩
  let errors := lengthErrors ++ colErrors
  ⟨errors.isEmpty, errors, []⟩

/-! ### AmountVerifier (src/src/modules/validation/amount-verifier.ts) -/

structure LineItemVerification where
  index : ℕ
  description : String
  quantity : ℚ
  unitAmount : ℚ
  lineTotal : ℚ
  hasIssues : Bool
  issues : List String
deriving DecidableEq, Repr

structure AmountVerificationResult where
  invoiceNumber : String
  calculatedTotal : ℚ
  expectedTotal : Option ℚ
  discrepancy : ℚ
  isValid : Bool
  lineItemsCount : ℕ
  details : List LineItemVerification
  suggestions : List String
deriving DecidableEq, Repr

/-- Constructor state of `AmountVerifier` (defaults `0.10` and `0.10`). -/
structure AmountVerifier where
  toleranceAmount : ℚ
  gstRate : ℚ

/-- `AmountVerifier.detectOCRMisreads`. The `commonMisreads` table declared
in the source is dead code (never read) and is omitted. -/
def detectOCRMisreads (unitAmount : ℚ) (_quantity : ℚ) : List String :=
  let amountStr := toFixed2 unitAmount
  let sevenIssues :=
    if amountStr.data.contains '7' && !amountStr.data.contains '1' then
      let possibleCorrect : String := ⟨amountStr.data.map fun c => if c = '7' then '1' else c⟩
      ["Unit amount $" ++ amountStr ++ " might be OCR error. Did you mean $" ++
        possibleCorrect ++ "?"]
    else []
  let zeroIssues :=
    if "00.00".data.isSuffixOf amountStr.data && decide (unitAmount > 100) then
      ["Amount ends in .00 - verify decimal placement is correct"]
    else []
  sevenIssues ++ zeroIssues

/-- `AmountVerifier.verifyLineItem`: issue flags plus the fixed-point line
total `round(round(q*100) * round(u*100) / 100) / 100`. -/
def verifyLineItem (item : InvoiceLineItem) (index : ℕ) : LineItemVerification :=
  let qtyIssues :=
    if jsIsNaN item.quantity || decide (item.quantity ≤ 0) then
      ["Invalid quantity: " ++ numToString item.quantity]
    else []
  let nanIssues :=
    if jsIsNaN item.unitAmount then
      ["Invalid unit amount: " ++ numToString item.unitAmount]
    else []
  let highIssues :=
    if decide (item.unitAmount > 1000000) then
      ["Suspiciously high unit amount: $" ++ toFixed2 item.unitAmount ++ " - possible OCR error"]
    else []
  let negAmountIssues :=
    if decide (item.unitAmount < 0) then
      ["Negative unit amount: $" ++ toFixed2 item.unitAmount]
    else []
  let negQtyIssues :=
    if decide (item.quantity < 0) then
      ["Negative quantity: " ++ numToString item.quantity]
    else []
  let quantityCents := jsRound (item.quantity * 100)
  let unitAmountCents := jsRound (item.unitAmount * 100)
  let lineTotalCents : ℚ := (quantityCents * unitAmountCents : ℤ) / 100
  let lineTotal : ℚ := (jsRound lineTotalCents : ℚ) / 100
  let ocrIssues := detectOCRMisreads item.unitAmount item.quantity
  let issues := qtyIssues ++ nanIssues ++ highIssues ++ negAmountIssues ++ negQtyIssues ++ ocrIssues
  { index := index + 1
    description := item.description
    quantity := item.quantity
    unitAmount := item.unitAmount
    lineTotal := lineTotal
    hasIssues := !qtyIssues.isEmpty || !nanIssues.isEmpty || !highIssues.isEmpty ||
      !negAmountIssues.isEmpty || !negQtyIssues.isEmpty || !ocrIssues.isEmpty
    issues := issues }

/-- Attempt to match `/total[:\s]+\$?([\d,]+\.?\d*)/i` at the start of `l`,
returning the text captured by the group.  The character classes of
adjacent regex pieces are disjoint, so greedy (maximal-munch) scanning is
exactly the backtracking semantics. -/
def matchTotalAt (l : List Char) : Option (List Char) :=
  match l with
  | c1 :: c2 :: c3 :: c4 :: c5 :: rest =>
    if charLower c1 = 't' && charLower c2 = 'o' && charLower c3 = 't' &&
        charLower c4 = 'a' && charLower c5 = 'l' then
      let seps := rest.takeWhile fun c => c = ':' || isJsWs c
      if seps.isEmpty then none
      else
        let r2 := rest.dropWhile fun c => c = ':' || isJsWs c
        let r3 := match r2 with
          | '$' :: r => r
          | _ => r2
        let ds := r3.takeWhile fun c => jsIsDigit c || c = ','
        if ds.isEmpty then none
        else
          let r4 := r3.dropWhile fun c => jsIsDigit c || c = ','
          let tailPart := match r4 with
            | '.' :: r => '.' :: r.takeWhile jsIsDigit
            | _ => []
          some (ds ++ tailPart)
    else none
  | _ => none

/-- First (leftmost) match of the total pattern inside a string. -/
def findTotalCapture : List Char → Option (List Char)
  | [] => none
  | c :: rest =>
    match matchTotalAt (c :: rest) with
    | some cap => some cap
    | none => findTotalCapture rest

/-- `AmountVerifier.extractExpectedTotal`: scan the record's warnings for a
`total: $x` pattern; commas are removed before `parseFloat`; a NaN parse
falls through to the next warning. -/
def extractExpectedTotal (invoice : ExtractedInvoice) : Option ℚ :=
  go invoice.warnings
where
  go : List String → Option ℚ
    | [] => none
    | w :: ws =>
      match findTotalCapture w.data with
      | none => go ws
      | some cap =>
        match jsParseFloatL (cap.filter fun c => c ≠ ',') with
        | some total => some total
        | none => go ws

/-- Truncation toward zero on rationals. -/
def ratTrunc (x : ℚ) : ℤ := if x < 0 then -⌊-x⌋ else ⌊x⌋

/-- JS `%` on numbers: remainder with truncation toward zero. -/
def jsRem (a b : ℚ) : ℚ := a - b * ratTrunc (a / b)

/-- `AmountVerifier.generateSuggestions`. -/
def generateSuggestions (av : AmountVerifier) (invoice : ExtractedInvoice)
    (lineDetails : List LineItemVerification) (calculatedTotal : ℚ)
    (expectedTotal : Option ℚ) (discrepancy : ℚ) : List String :=
  let discSuggestions :=
    match expectedTotal with
    | some _ =>
      if discrepancy > av.toleranceAmount then
        let gstAmount := calculatedTotal * av.gstRate
        ["Total discrepancy of $" ++ toFixed2 discrepancy ++
          " detected. Review line items for OCR errors."] ++
        (if |discrepancy - gstAmount| < 1/10 then
          ["Discrepancy matches GST amount ($" ++ toFixed2 gstAmount ++
            "). Check if GST is already included in unit amounts."]
        else []) ++
        (if jsRem discrepancy 10 = 0 ∧ discrepancy < 100 then
          ["Discrepancy is a multiple of $10 - possible single digit OCR error."]
        else [])
      else []
    | none => []
  let issueCount := (lineDetails.filter fun l => l.hasIssues).length
  let issueSuggestions :=
    if issueCount > 0 then
      [natToStr issueCount ++ " line item(s) have potential issues. Review highlighted items."]
    else []
  let missingSuggestions :=
    if invoice.lineItems.length = 0 then
      ["No line items found. Manual entry may be required."]
    else []
  let confidenceSuggestions :=
    if invoice.extractionConfidence < 70 then
      ["Low extraction confidence (" ++ numToString invoice.extractionConfidence ++
        "%). Manual verification strongly recommended."]
    else []
  discSuggestions ++ issueSuggestions ++ missingSuggestions ++ confidenceSuggestions

/-- `AmountVerifier.verifyInvoice`.  The source accumulates the calculated
total inside the per-line loop with an `if (!verification.hasIssues)` whose
two branches both add `verification.lineTotal`; the fold mirrors that
branch. -/
def verifyInvoice (av : AmountVerifier) (invoice : ExtractedInvoice) : AmountVerificationResult :=
  let lineDetails := invoice.lineItems.enum.map fun p => verifyLineItem p.2 p.1
  let rawTotal := lineDetails.foldl
    (fun acc v => if v.hasIssues = false then acc + v.lineTotal else acc + v.lineTotal) 0
  let calculatedTotal := round2 rawTotal
  let expectedTotal := extractExpectedTotal invoice
  let discrepancy :=
    match expectedTotal with
    | some e => |calculatedTotal - e|
    | none => 0
  let isValid : Bool := expectedTotal.isNone || decide (discrepancy ≤ av.toleranceAmount)
  { invoiceNumber := invoice.invoiceNumber
    calculatedTotal := calculatedTotal
    expectedTotal := expectedTotal
    discrepancy := discrepancy
    isValid := isValid
    lineItemsCount := invoice.lineItems.length
    details := lineDetails
    suggestions := generateSuggestions av invoice lineDetails calculatedTotal expectedTotal
      discrepancy }

/-! ### DuplicateDetector (src/unnamed/part_003) -/

structure InvoiceFingerprint where
  hash : String
  invoiceNumber : String
  contactName : String
  invoiceDate : String
  totalAmount : ℚ
  sourceFile : String
deriving DecidableEq, Repr

/-- The raw total `lineItems.reduce((sum, item) => sum + quantity * unitAmount, 0)`
used by the fingerprint. -/
def fingerprintTotal (invoice : ExtractedInvoice) : ℚ :=
  invoice.lineItems.foldl (fun sum item => sum + item.quantity * item.unitAmount) 0

/-- `DuplicateDetector.createFingerprint`, parameterized by the hash
function `h`.  The source hashes with Node's `crypto` SHA-256 (truncated to
16 hex characters) behind a memoizing cache; both are deterministic, so any
function `h : String → String` soundly models them. -/
def createFingerprint (h : String → String) (invoice : ExtractedInvoice) : InvoiceFingerprint :=
  let totalAmount := fingerprintTotal invoice
  let hashInput := String.intercalate "|"
    [jsTrim (jsLower invoice.invoiceNumber),
     jsTrim (jsLower invoice.contactName),
     invoice.invoiceDate,
     toFixed2 totalAmount]
  { hash := h hashInput
    invoiceNumber := invoice.invoiceNumber
    contactName := invoice.contactName
    invoiceDate := invoice.invoiceDate
    totalAmount := totalAmount
    sourceFile := invoice.sourceFile }

/-! ### InvoiceParser.extractInvoiceNumber (src/src/modules/parser/index.ts)

The four regex strategies are embedded as scanners that try each start
position from the left, mirroring the JS engine's leftmost-match rule.
Alternations are tried in source order with fallthrough on continuation
failure; all remaining regex pieces have pairwise disjoint character
classes, so greedy scanning coincides with backtracking. -/

structure ParsedField where
  value : String
  confidence : ℕ
  source : String
deriving DecidableEq, Repr

/-- The character class `[A-Z0-9-]` under the `/i` flag. -/
def invTokenClass (c : Char) : Bool :=
  ('A' ≤ c && c ≤ 'Z') || ('a' ≤ c && c ≤ 'z') || jsIsDigit c || c = '-'

/-- Case-insensitive literal match at the head, returning the remainder. -/
def ciMatch : List Char → List Char → Option (List Char)
  | [], l => some l
  | _ :: _, [] => none
  | p :: ps, c :: cs => if charLower c = charLower p then ciMatch ps cs else none

/-- The shared continuation `\s*[:.]?\s*([A-Z0-9-]+)` of the first two
invoice-number patterns. -/
def contColonToken (l : List Char) : Option (List Char) :=
  let l1 := l.dropWhile isJsWs
  let l2 :=
    match l1 with
    | c :: r => if c = ':' || c = '.' then r else l1
    | [] => l1
  let l3 := l2.dropWhile isJsWs
  let tok := l3.takeWhile invTokenClass
  if tok.isEmpty then none else some tok

/-- `/Invoice\s*(?:Number|No\.?|#)\s*[:.]?\s*([A-Z0-9-]+)/i` at one start
position. -/
def p1At (l : List Char) : Option (List Char) :=
  match ciMatch "invoice".data l with
  | none => none
  | some r =>
    let r1 := r.dropWhile isJsWs
    let viaNumber :=
      match ciMatch "number".data r1 with
      | some r2 => contColonToken r2
      | none => none
    match viaNumber with
    | some v => some v
    | none =>
      let viaNo :=
        match ciMatch "no".data r1 with
        | some r2 =>
          let r3 := match r2 with
            | '.' :: t => t
            | _ => r2
          contColonToken r3
        | none => none
      match viaNo with
      | some v => some v
      | none =>
        match r1 with
        | '#' :: t => contColonToken t
        | _ => none

/-- `/Invoice\s*[:.]?\s*([A-Z0-9-]+)/i` at one start position. -/
def p2At (l : List Char) : Option (List Char) :=
  match ciMatch "invoice".data l with
  | none => none
  | some r => contColonToken r

/-- `/INV[-\s]?([0-9]+)/i` at one start position. -/
def p3At (l : List Char) : Option (List Char) :=
  match ciMatch "inv".data l with
  | none => none
  | some r =>
    let r2 :=
      match r with
      | c :: t => if c = '-' || isJsWs c then t else r
      | [] => r
    let ds := r2.takeWhile jsIsDigit
    if ds.isEmpty then none else some ds

/-- Leftmost match of a single-position matcher. -/
def scanPattern (m : List Char → Option (List Char)) : List Char → Option (List Char)
  | [] => none
  | c :: rest =>
    match m (c :: rest) with
    | some v => some v
    | none => scanPattern m rest

/-- Body `\s*#\s*([A-Z0-9-]+)` of the fourth pattern. -/
def coreP4 (l : List Char) : Option (List Char) :=
  let l1 := l.dropWhile isJsWs
  match l1 with
  | '#' :: t =>
    let l2 := t.dropWhile isJsWs
    let tok := l2.takeWhile invTokenClass
    if tok.isEmpty then none else some tok
  | _ => none

/-- `/(?:^|\n)\s*#\s*([A-Z0-9-]+)/m`: at each position (leftmost first) try
the `^` alternative when at a line start, then the `\n` alternative. -/
def scanP4 (atStart : Bool) : List Char → Option (List Char)
  | [] => if atStart then coreP4 [] else none
  | c :: rest =>
    match (if atStart then coreP4 (c :: rest) else none) with
    | some v => some v
    | none =>
      match (if c = '\n' then coreP4 rest else none) with
      | some v => some v
      | none => scanP4 (c = '\n') rest

/-- `InvoiceParser.extractInvoiceNumber`: ordered strategy cascade; every
matching strategy returns confidence 90 and source `regex`; when none
matches the field is empty with confidence 0. -/
def extractInvoiceNumber (text : String) : ParsedField :=
  match scanPattern p1At text.data with
  | some v => ⟨jsTrim ⟨v⟩, 90, "regex"⟩
  | none =>
    match scanPattern p2At text.data with
    | some v => ⟨jsTrim ⟨v⟩, 90, "regex"⟩
    | none =>
      match scanPattern p3At text.data with
      | some v => ⟨jsTrim ⟨v⟩, 90, "regex"⟩
      | none =>
        match scanP4 true text.data with
        | some v => ⟨jsTrim ⟨v⟩, 90, "regex"⟩
        | none => ⟨"", 0, "not_found"⟩

/-- The fixed-point line total of `verifyLineItem` as a function of the
`(quantity, unitAmount)` pair alone. -/
def lineTotalPair (p : ℚ × ℚ) : ℚ :=
  (jsRound (((jsRound (p.1 * 100) * jsRound (p.2 * 100) : ℤ) : ℚ) / 100) : ℚ) / 100

/-- Format a line item's quantity and unit amount as `TemplateFormatter`
does, parse both back with `parseFloat`, and multiply — the round trip named
by the spec. -/
def roundTripProduct (quantity unitAmount : ℚ) : Option ℚ :=
  match jsParseFloat (formatNumber quantity), jsParseFloat (formatCurrency unitAmount) with
  | some a, some b => some (a * b)
  | _, _ => none

/-! ### Evaluation lemmas for the numeric primitives -/

theorem jsRound_eq_of (x : ℚ) (n : ℤ) (h1 : (n : ℚ) ≤ x + 1/2) (h2 : x + 1/2 < (n : ℚ) + 1) :
    jsRound x = n := by
  rw [jsRound]
  refine Int.floor_eq_iff.mpr ⟨h1, ?_⟩
  exact_mod_cast h2

theorem jsRound_intCast (n : ℤ) : jsRound (n : ℚ) = n :=
  jsRound_eq_of _ _ (by norm_num) (by norm_num)

theorem jsRound_natCast (n : ℕ) : jsRound ((n : ℕ) : ℚ) = (n : ℤ) :=
  jsRound_eq_of _ _ (by push_cast; norm_num) (by push_cast; norm_num)

theorem digitChar_toNat (d : ℕ) (h : d < 10) : (digitChar d).toNat = 48 + d := by
  interval_cases d <;> rfl

theorem jsIsDigit_digitChar (d : ℕ) (h : d < 10) : jsIsDigit (digitChar d) = true := by
  interval_cases d <;> rfl

theorem isJsWs_eq_false_of_digit {c : Char} (h : jsIsDigit c = true) : isJsWs c = false := by
  simp only [jsIsDigit, Bool.and_eq_true, decide_eq_true_eq] at h
  simp only [isJsWs, Bool.or_eq_false_iff, Bool.and_eq_false_iff, decide_eq_false_iff_not]
  omega

theorem digitsToNat_from (a : ℕ) (l : List Char) :
    l.foldl (fun a c => 10 * a + (c.toNat - 48)) a = a * 10 ^ l.length + digitsToNat l := by
  induction l generalizing a with
  | nil => simp [digitsToNat]
  | cons c t ih =>
    simp only [List.foldl_cons, List.length_cons, digitsToNat]
    rw [ih, ih (10 * 0 + (c.toNat - 48))]
    ring

theorem digitsToNat_cons (c : Char) (t : List Char) :
    digitsToNat (c :: t) = (c.toNat - 48) * 10 ^ t.length + digitsToNat t := by
  show (c :: t).foldl (fun a c => 10 * a + (c.toNat - 48)) 0 = _
  rw [List.foldl_cons, digitsToNat_from]
  ring_nf

theorem digitsToNat_append (s t : List Char) :
    digitsToNat (s ++ t) = digitsToNat s * 10 ^ t.length + digitsToNat t := by
  show (s ++ t).foldl (fun a c => 10 * a + (c.toNat - 48)) 0 = _
  rw [List.foldl_append, digitsToNat_from]
  rfl

theorem natDigitsAux_spec : ∀ f n, n < f →
    digitsToNat (natDigitsAux f n) = n ∧
    (∀ c ∈ natDigitsAux f n, jsIsDigit c = true) ∧ natDigitsAux f n ≠ []
  | 0, n, h => absurd h (Nat.not_lt_zero n)
  | f + 1, n, h => by
    rw [natDigitsAux]
    by_cases hn : n < 10
    · refine if_pos hn ▸ ⟨?_, ?_, by simp⟩
      · simp [digitsToNat_cons, digitChar_toNat n hn, digitsToNat]
      · intro c hc
        rw [List.mem_singleton] at hc
        exact hc ▸ jsIsDigit_digitChar n hn
    · have hdiv : n / 10 < f := by
        have h1 : n / 10 < n := Nat.div_lt_self (by omega) (by omega)
        omega
      obtain ⟨ih1, ih2, _⟩ := natDigitsAux_spec f (n / 10) hdiv
      refine if_neg hn ▸ ⟨?_, ?_, by simp⟩
      · rw [digitsToNat_append, ih1]
        simp [digitsToNat_cons, digitChar_toNat (n % 10) (Nat.mod_lt n (by omega)), digitsToNat]
        omega
      · intro c hc
        rcases List.mem_append.mp hc with h' | h'
        · exact ih2 c h'
        · rw [List.mem_singleton] at h'
          exact h' ▸ jsIsDigit_digitChar _ (Nat.mod_lt n (by omega))

theorem digitsToNat_natDigits (n : ℕ) : digitsToNat (natDigits n) = n :=
  (natDigitsAux_spec (n + 1) n (Nat.lt_succ_self n)).1

theorem natDigits_all_digit (n : ℕ) : ∀ c ∈ natDigits n, jsIsDigit c = true :=
  (natDigitsAux_spec (n + 1) n (Nat.lt_succ_self n)).2.1

theorem natDigits_ne_nil (n : ℕ) : natDigits n ≠ [] :=
  (natDigitsAux_spec (n + 1) n (Nat.lt_succ_self n)).2.2

theorem fracDigitsAux_spec : ∀ f r b, 0 < b → r < b → b ∣ r * 10 ^ f →
    digitsToNat (fracDigitsAux f r b) * b = r * 10 ^ (fracDigitsAux f r b).length ∧
    (∀ c ∈ fracDigitsAux f r b, jsIsDigit c = true)
  | 0, r, b, hb, hrb, hdvd => by
    have hr0 : r = 0 := by
      rcases hdvd with ⟨k, hk⟩
      simp only [pow_zero, mul_one] at hk
      cases k with
      | zero => simpa using hk
      | succ k =>
        have hge : b ≤ b * (k + 1) := Nat.le_mul_of_pos_right b (Nat.succ_pos k)
        omega
    simp [fracDigitsAux, digitsToNat, hr0]
  | f + 1, r, b, hb, hrb, hdvd => by
    rw [fracDigitsAux]
    by_cases hr : r = 0
    · simp [hr, digitsToNat]
    · rw [if_neg hr]
      set d := r * 10 / b with hd
      set m := r * 10 % b with hm
      have hdm : b * d + m = r * 10 := Nat.div_add_mod (r * 10) b
      have hd10 : d < 10 := by
        rw [hd, Nat.div_lt_iff_lt_mul hb]
        omega
      have hmod : m < b := Nat.mod_lt _ hb
      have h1 : b ∣ r * 10 * 10 ^ f := by
        rcases hdvd with ⟨k, hk⟩
        exact ⟨k, by rw [← hk]; ring⟩
      have hble : b * d ≤ r * 10 := by omega
      have hsub : m * 10 ^ f = r * 10 * 10 ^ f - b * (d * 10 ^ f) := by
        have hm' : m = r * 10 - b * d := by omega
        rw [hm', Nat.sub_mul]
        ring_nf
      have hdvd' : b ∣ m * 10 ^ f := by
        rw [hsub]
        exact Nat.dvd_sub' h1 ⟨d * 10 ^ f, rfl⟩
      obtain ⟨ih1, ih2⟩ := fracDigitsAux_spec f m b hb hmod hdvd'
      constructor
      · rw [digitsToNat_cons, digitChar_toNat _ hd10]
        have hcl : (48 + d - 48) = d := Nat.add_sub_cancel_left 48 d
        rw [hcl, add_mul, ih1, List.length_cons]
        have hfin : d * 10 ^ (fracDigitsAux f m b).length * b +
            m * 10 ^ (fracDigitsAux f m b).length =
            (b * d + m) * 10 ^ (fracDigitsAux f m b).length := by
          ring
        rw [hfin, hdm]
        ring
      · intro c hc
        rcases List.mem_cons.mp hc with h' | h'
        · exact h' ▸ jsIsDigit_digitChar _ hd10
        · exact ih2 c h'

theorem fracDigitsAux_ne_nil (f r b : ℕ) (hf : 0 < f) (hr : r ≠ 0) :
    fracDigitsAux f r b ≠ [] := by
  cases f with
  | zero => omega
  | succ f => simp [fracDigitsAux, hr]

/-! ### Scanning lemmas -/

theorem dropWhile_eq_self_of_head (p : Char → Bool) (l : List Char)
    (h : ∀ c, l.head? = some c → p c = false) : l.dropWhile p = l := by
  cases l with
  | nil => rfl
  | cons a t => simp [List.dropWhile_cons, h a rfl]

theorem takeWhile_append_of (p : Char → Bool) : ∀ (A B : List Char),
    (∀ c ∈ A, p c = true) → (∀ c, B.head? = some c → p c = false) →
    (A ++ B).takeWhile p = A
  | [], B, _, hB => by
    cases B with
    | nil => rfl
    | cons b t => simp [List.takeWhile_cons, hB b rfl]
  | a :: A, B, hA, hB => by
    simp only [List.cons_append, List.takeWhile_cons, hA a (List.mem_cons_self a A), if_true]
    rw [takeWhile_append_of p A B (fun c hc => hA c (List.mem_cons_of_mem a hc)) hB]

theorem dropWhile_append_of (p : Char → Bool) : ∀ (A B : List Char),
    (∀ c ∈ A, p c = true) → (∀ c, B.head? = some c → p c = false) →
    (A ++ B).dropWhile p = B
  | [], B, _, hB => by
    cases B with
    | nil => rfl
    | cons b t => simp [List.dropWhile_cons, hB b rfl]
  | a :: A, B, hA, hB => by
    simp only [List.cons_append, List.dropWhile_cons, hA a (List.mem_cons_self a A), if_true]
    exact dropWhile_append_of p A B (fun c hc => hA c (List.mem_cons_of_mem a hc)) hB

theorem takeWhile_all (p : Char → Bool) (A : List Char) (hA : ∀ c ∈ A, p c = true) :
    A.takeWhile p = A := by
  have := takeWhile_append_of p A [] hA (by intro c hc; cases hc)
  simpa using this

/-! ### Parsing back formatted numbers -/

theorem jsParseAfterSign_shape (neg : Bool) (ipd rest fpd : List Char)
    (hip : ∀ c ∈ ipd, jsIsDigit c = true) (hipne : ipd ≠ [])
    (hrest : rest = [] ∨ rest = '.' :: fpd) (hfp : ∀ c ∈ fpd, jsIsDigit c = true)
    (hfpz : rest = [] → fpd = []) :
    jsParseAfterSign neg (ipd ++ rest) =
      some ((if neg then (-1 : ℚ) else 1) *
        ((digitsToNat ipd : ℚ) + (digitsToNat fpd : ℚ) / 10 ^ fpd.length)) := by
  have hrestHead : ∀ c, rest.head? = some c → jsIsDigit c = false := by
    intro c hc
    rcases hrest with h | h
    · rw [h] at hc; cases hc
    · rw [h] at hc
      simp only [List.head?_cons, Option.some_inj] at hc
      subst hc
      rfl
  have hl2take : (ipd ++ rest).takeWhile jsIsDigit = ipd :=
    takeWhile_append_of jsIsDigit ipd rest hip hrestHead
  have hl2drop : (ipd ++ rest).dropWhile jsIsDigit = rest :=
    dropWhile_append_of jsIsDigit ipd rest hip hrestHead
  simp only [jsParseAfterSign]
  rw [hl2take, hl2drop]
  rcases hrest with h | h
  · subst h
    have hfpnil : fpd = [] := hfpz rfl
    subst hfpnil
    simp [List.isEmpty_iff, hipne, digitsToNat]
  · subst h
    simp [List.isEmpty_iff, hipne, takeWhile_all jsIsDigit fpd hfp]

/-- Recombine the sign handling of `jsParseFloatL` with the digit shape. -/
theorem jsParseFloatL_shape (neg : Bool) (ipd rest fpd : List Char)
    (hip : ∀ c ∈ ipd, jsIsDigit c = true) (hipne : ipd ≠ [])
    (hrest : rest = [] ∨ rest = '.' :: fpd) (hfp : ∀ c ∈ fpd, jsIsDigit c = true)
    (hfpz : rest = [] → fpd = []) :
    jsParseFloatL ((if neg then ['-'] else []) ++ ipd ++ rest) =
      some ((if neg then (-1 : ℚ) else 1) *
        ((digitsToNat ipd : ℚ) + (digitsToNat fpd : ℚ) / 10 ^ fpd.length)) := by
  obtain ⟨c0, t0, hc0⟩ : ∃ c0 t0, ipd = c0 :: t0 := by
    cases ipd with
    | nil => exact absurd rfl hipne
    | cons c t => exact ⟨c, t, rfl⟩
  have hc0dig : jsIsDigit c0 = true := hip c0 (hc0 ▸ List.mem_cons_self c0 t0)
  have hc0n := hc0dig
  simp only [jsIsDigit, Bool.and_eq_true, decide_eq_true_eq] at hc0n
  cases neg with
  | true =>
    have hdataEq : (if (true : Bool) then ['-'] else []) ++ ipd ++ rest =
        '-' :: (ipd ++ rest) := by simp
    rw [hdataEq]
    have hnoWs : ('-' :: (ipd ++ rest)).dropWhile isJsWs = '-' :: (ipd ++ rest) :=
      dropWhile_eq_self_of_head _ _ (by
        intro c hc
        simp only [List.head?_cons, Option.some_inj] at hc
        subst hc
        rfl)
    simp only [jsParseFloatL, hnoWs, List.head?_cons, List.tail_cons, Option.some.injEq]
    rw [if_pos trivial]
    simpa using jsParseAfterSign_shape true ipd rest fpd hip hipne hrest hfp hfpz
  | false =>
    have hdataEq : (if (false : Bool) then ['-'] else []) ++ ipd ++ rest =
        c0 :: (t0 ++ rest) := by simp [hc0]
    rw [hdataEq]
    have hnoWs : (c0 :: (t0 ++ rest)).dropWhile isJsWs = c0 :: (t0 ++ rest) :=
      dropWhile_eq_self_of_head _ _ (by
        intro c hc
        simp only [List.head?_cons, Option.some_inj] at hc
        subst hc
        exact isJsWs_eq_false_of_digit hc0dig)
    have hm : ¬ ((c0 :: (t0 ++ rest)).head? = some '-') := by
      simp only [List.head?_cons, Option.some_inj]
      intro h
      rw [h] at hc0n
      simp at hc0n
    have hp : ¬ ((c0 :: (t0 ++ rest)).head? = some '+') := by
      simp only [List.head?_cons, Option.some_inj]
      intro h
      rw [h] at hc0n
      simp at hc0n
    have hcons : c0 :: (t0 ++ rest) = ipd ++ rest := by rw [hc0]; rfl
    simp only [jsParseFloatL, hnoWs]
    rw [if_neg hm, if_neg hp, hcons]
    simpa using jsParseAfterSign_shape false ipd rest fpd hip hipne hrest hfp hfpz

/-- Parsing back `numToString` recovers the number exactly whenever the
denominator divides `10 ^ toStringFuel` (every finite double does). -/
theorem jsParseFloat_numToString (x : ℚ) (hden : x.den ∣ 10 ^ toStringFuel) :
    jsParseFloat (numToString x) = some x := by
  have hbpos : 0 < x.den := Nat.pos_of_ne_zero x.den_nz
  have hbQ : ((x.den : ℚ)) ≠ 0 := by exact_mod_cast hbpos.ne'
  have habc : x.den * (x.num.natAbs / x.den) + x.num.natAbs % x.den = x.num.natAbs :=
    Nat.div_add_mod _ _
  have hvalue : jsParseFloat (numToString x) =
      some ((if x < 0 then (-1 : ℚ) else 1) * ((x.num.natAbs : ℚ) / (x.den : ℚ))) := by
    by_cases hrem : x.num.natAbs % x.den = 0
    · have hdata : (numToString x).data =
          (if x < 0 then ['-'] else []) ++ natDigits (x.num.natAbs / x.den) ++ [] := by
        simp [numToString, hrem]
      have hshape := fun (neg : Bool) => jsParseFloatL_shape neg
        (natDigits (x.num.natAbs / x.den)) [] []
        (natDigits_all_digit _) (natDigits_ne_nil _) (Or.inl rfl) (by intro c hc; cases hc)
        (fun _ => rfl)
      have hipval : ((digitsToNat (natDigits (x.num.natAbs / x.den)) : ℕ) : ℚ) =
          ((x.num.natAbs / x.den : ℕ) : ℚ) := by rw [digitsToNat_natDigits]
      have hdiv : ((x.num.natAbs / x.den : ℕ) : ℚ) = (x.num.natAbs : ℚ) / (x.den : ℚ) := by
        have hdvd : x.den ∣ x.num.natAbs := Nat.dvd_of_mod_eq_zero hrem
        rcases hdvd with ⟨k, hk⟩
        rw [hk]
        rw [Nat.mul_div_cancel_left k hbpos]
        push_cast
        field_simp
      show jsParseFloatL (numToString x).data = _
      rw [hdata]
      by_cases hneg : x < 0
      · rw [if_pos hneg]
        have := hshape true
        rw [if_pos (by trivial : (true : Bool) = true)] at this
        rw [this]
        rw [if_pos hneg]
        congr 1
        rw [hipval, hdiv]
        simp [digitsToNat]
      · rw [if_neg hneg]
        have := hshape false
        rw [if_neg (by simp : ¬ ((false : Bool) = true))] at this
        rw [this]
        rw [if_neg hneg]
        congr 1
        rw [hipval, hdiv]
        simp [digitsToNat]
    · have hmodlt : x.num.natAbs % x.den < x.den := Nat.mod_lt _ hbpos
      have hdvd10 : x.den ∣ (x.num.natAbs % x.den) * 10 ^ toStringFuel :=
        Dvd.dvd.mul_left hden _
      obtain ⟨hfval, hfdig⟩ := fracDigitsAux_spec toStringFuel (x.num.natAbs % x.den) x.den
        hbpos hmodlt hdvd10
      have hdata : (numToString x).data =
          (if x < 0 then ['-'] else []) ++ natDigits (x.num.natAbs / x.den) ++
            ('.' :: fracDigitsAux toStringFuel (x.num.natAbs % x.den) x.den) := by
        simp [numToString, hrem]
      have hshape := fun (neg : Bool) => jsParseFloatL_shape neg
        (natDigits (x.num.natAbs / x.den))
        ('.' :: fracDigitsAux toStringFuel (x.num.natAbs % x.den) x.den)
        (fracDigitsAux toStringFuel (x.num.natAbs % x.den) x.den)
        (natDigits_all_digit _) (natDigits_ne_nil _) (Or.inr rfl) hfdig
        (by intro h; cases h)
      have hfrac : ((digitsToNat (fracDigitsAux toStringFuel (x.num.natAbs % x.den) x.den) : ℕ) : ℚ) /
          10 ^ (fracDigitsAux toStringFuel (x.num.natAbs % x.den) x.den).length =
          ((x.num.natAbs % x.den : ℕ) : ℚ) / (x.den : ℚ) := by
        have h10 : ((10 : ℚ)) ^ (fracDigitsAux toStringFuel (x.num.natAbs % x.den) x.den).length ≠ 0 := by
          positivity
        rw [div_eq_div_iff h10 hbQ]
        exact_mod_cast hfval
      have habcQ : (x.den : ℚ) * ((x.num.natAbs / x.den : ℕ) : ℚ) +
          ((x.num.natAbs % x.den : ℕ) : ℚ) = (x.num.natAbs : ℚ) := by
        exact_mod_cast habc
      have htot : ((digitsToNat (natDigits (x.num.natAbs / x.den)) : ℕ) : ℚ) +
          ((digitsToNat (fracDigitsAux toStringFuel (x.num.natAbs % x.den) x.den) : ℕ) : ℚ) /
            10 ^ (fracDigitsAux toStringFuel (x.num.natAbs % x.den) x.den).length =
          (x.num.natAbs : ℚ) / (x.den : ℚ) := by
        rw [digitsToNat_natDigits, hfrac]
        rw [eq_div_iff hbQ, add_mul, div_mul_cancel₀ _ hbQ]
        linarith [habcQ]
      show jsParseFloatL (numToString x).data = _
      rw [hdata]
      by_cases hneg : x < 0
      · rw [if_pos hneg]
        have := hshape true
        rw [if_pos (by trivial : (true : Bool) = true)] at this
        rw [this, if_pos hneg]
        congr 1
        rw [htot]
        norm_num
      · rw [if_neg hneg]
        have := hshape false
        rw [if_neg (by simp : ¬ ((false : Bool) = true))] at this
        rw [this, if_neg hneg]
        congr 1
        rw [htot]
        norm_num
  rw [hvalue]
  congr 1
  by_cases hneg : x < 0
  · rw [if_pos hneg]
    have habs : ((x.num.natAbs : ℚ)) = -(x.num : ℚ) := by
      rw [Nat.cast_natAbs]
      have h' : |x.num| = -x.num := abs_of_nonpos (le_of_lt (Rat.num_neg.mpr hneg))
      exact_mod_cast h'
    rw [habs, neg_one_mul, neg_div, neg_neg, Rat.num_div_den]
  · rw [if_neg hneg]
    have habs : ((x.num.natAbs : ℚ)) = (x.num : ℚ) := by
      rw [Nat.cast_natAbs]
      have h' : |x.num| = x.num := abs_of_nonneg (Rat.num_nonneg.mpr (not_lt.mp hneg))
      exact_mod_cast h'
    rw [one_mul, habs, Rat.num_div_den]

theorem twoDigitFrac_spec (k : ℕ) (hk : k < 100) :
    digitsToNat (twoDigitFrac k) = k ∧ (twoDigitFrac k).length = 2 ∧
    (∀ c ∈ twoDigitFrac k, jsIsDigit c = true) := by
  by_cases h : k < 10
  · rw [twoDigitFrac, if_pos h]
    refine ⟨?_, rfl, ?_⟩
    · rw [digitsToNat_cons, digitsToNat_cons, digitChar_toNat k h]
      simp [digitsToNat]
    · intro c hc
      rcases List.mem_cons.mp hc with h' | h'
      · subst h'; rfl
      · rw [List.mem_singleton] at h'
        exact h' ▸ jsIsDigit_digitChar k h
  · rw [twoDigitFrac, if_neg h]
    refine ⟨digitsToNat_natDigits k, ?_, natDigits_all_digit k⟩
    have h10 : k / 10 < 10 := by omega
    have hk1 : natDigitsAux k (k / 10) = [digitChar (k / 10)] := by
      cases k with
      | zero => omega
      | succ f => rw [natDigitsAux, if_pos h10]
    rw [natDigits, natDigitsAux, if_neg h, hk1]
    rfl

/-- Parsing back `toFixed2` of an exact cent amount recovers it exactly. -/
theorem jsParseFloat_toFixed2_cents (uc : ℤ) :
    jsParseFloat (toFixed2 ((uc : ℚ) / 100)) = some ((uc : ℚ) / 100) := by
  have habsQ : |(uc : ℚ)| = ((uc.natAbs : ℕ) : ℚ) := by
    rw [Nat.cast_natAbs]
    exact Int.cast_abs.symm
  have habs100 : |(uc : ℚ) / 100| * 100 = ((uc.natAbs : ℕ) : ℚ) := by
    rw [abs_div, abs_of_pos (show (0 : ℚ) < 100 by norm_num)]
    rw [div_mul_cancel₀ _ (show (100 : ℚ) ≠ 0 by norm_num)]
    exact habsQ
  have hround : jsRound (|(uc : ℚ) / 100| * 100) = ((uc.natAbs : ℕ) : ℤ) := by
    rw [habs100, jsRound_natCast]
  have hdata : (toFixed2 ((uc : ℚ) / 100)).data =
      (if (uc : ℚ) / 100 < 0 then ['-'] else []) ++
        (natDigits (uc.natAbs / 100) ++ '.' :: twoDigitFrac (uc.natAbs % 100)) := by
    simp only [toFixed2, hround, Int.toNat_natCast, centsRender]
  obtain ⟨hfd1, hfd2, hfd3⟩ := twoDigitFrac_spec (uc.natAbs % 100) (Nat.mod_lt _ (by norm_num))
  have habc : 100 * (uc.natAbs / 100) + uc.natAbs % 100 = uc.natAbs := Nat.div_add_mod _ _
  have habcQ : (100 : ℚ) * ((uc.natAbs / 100 : ℕ) : ℚ) + ((uc.natAbs % 100 : ℕ) : ℚ) =
      ((uc.natAbs : ℕ) : ℚ) := by exact_mod_cast habc
  have hvalcore : ((digitsToNat (natDigits (uc.natAbs / 100)) : ℕ) : ℚ) +
      ((digitsToNat (twoDigitFrac (uc.natAbs % 100)) : ℕ) : ℚ) /
        10 ^ (twoDigitFrac (uc.natAbs % 100)).length =
      ((uc.natAbs : ℕ) : ℚ) / 100 := by
    rw [digitsToNat_natDigits, hfd1, hfd2]
    have h2 : ((10 : ℚ)) ^ 2 = 100 := by norm_num
    rw [h2, eq_div_iff (show (100 : ℚ) ≠ 0 by norm_num), add_mul]
    rw [div_mul_cancel₀ _ (show (100 : ℚ) ≠ 0 by norm_num)]
    linarith [habcQ]
  have hshape := fun (neg : Bool) => jsParseFloatL_shape neg
    (natDigits (uc.natAbs / 100)) ('.' :: twoDigitFrac (uc.natAbs % 100))
    (twoDigitFrac (uc.natAbs % 100))
    (natDigits_all_digit _) (natDigits_ne_nil _) (Or.inr rfl) hfd3
    (by intro h; cases h)
  show jsParseFloatL (toFixed2 ((uc : ℚ) / 100)).data = _
  rw [hdata]
  by_cases hneg : (uc : ℚ) / 100 < 0
  · rw [if_pos hneg]
    have := hshape true
    rw [if_pos (by trivial : (true : Bool) = true)] at this
    rw [List.append_assoc] at this
    rw [this]
    congr 1
    rw [hvalcore]
    have hucneg : uc < 0 := by
      by_contra hge
      push_neg at hge
      have hq : (0 : ℚ) ≤ (uc : ℚ) := by exact_mod_cast hge
      exact absurd hneg (not_lt.mpr (div_nonneg hq (by norm_num)))
    have : ((uc.natAbs : ℕ) : ℚ) = -(uc : ℚ) := by
      rw [Nat.cast_natAbs]
      have h' : |uc| = -uc := abs_of_nonpos (le_of_lt hucneg)
      exact_mod_cast h'
    rw [this]
    have hite : (if ((true : Bool) = true) then (-1 : ℚ) else 1) = -1 := if_pos rfl
    rw [hite]
    ring
  · rw [if_neg hneg]
    have := hshape false
    rw [if_neg (by simp : ¬ ((false : Bool) = true))] at this
    rw [List.append_assoc] at this
    simp only [List.nil_append] at this
    rw [List.nil_append, this]
    congr 1
    rw [hvalcore]
    have hucnn : 0 ≤ uc := by
      by_contra hlt
      push_neg at hlt
      have hq : (uc : ℚ) < 0 := by exact_mod_cast hlt
      exact hneg (div_neg_of_neg_of_pos hq (by norm_num))
    have : ((uc.natAbs : ℕ) : ℚ) = (uc : ℚ) := by
      rw [Nat.cast_natAbs]
      have h' : |uc| = uc := abs_of_nonneg hucnn
      exact_mod_cast h'
    rw [this]
    have hite : (if ((false : Bool) = true) then (-1 : ℚ) else 1) = 1 := if_neg (by simp)
    rw [hite]
    ring

/-! ### Claim C7 — format/parse round trip -/

theorem parse_formatNumber_den (x : ℚ) (hden : x.den ∣ 10 ^ toStringFuel) :
    jsParseFloat (formatNumber x) = some x := by
  have h : formatNumber x = numToString x := by
    simp [formatNumber, jsIsNaN]
  rw [h]
  exact jsParseFloat_numToString x hden

/-- C7 is refuted by a unit amount with sub-cent digits: `toFixed(2)` of
`0.004` is `"0.00"`, so quantity 3 parses back to a product of 0, while the
true product is `0.012`, more than one cent away. -/
theorem c7_roundtrip_counterexample :
    roundTripProduct 3 ((1 : ℚ) / 250) = some 0 ∧
    ¬ (|(0 : ℚ) - 3 * ((1 : ℚ) / 250)| ≤ 1 / 100) := by
  have hq : jsParseFloat (formatNumber 3) = some 3 := by
    refine parse_formatNumber_den 3 ?_
    rw [show (3 : ℚ).den = 1 from rfl]
    exact one_dvd _
  have htf : toFixed2 ((1 : ℚ) / 250) = "0.00" := by
    have h1 : |(1 : ℚ) / 250| * 100 = 2 / 5 := by
      rw [abs_of_nonneg (by norm_num : (0 : ℚ) ≤ 1 / 250)]
      norm_num
    have h2 : jsRound ((2 : ℚ) / 5) = 0 := jsRound_eq_of _ 0 (by norm_num) (by norm_num)
    rw [toFixed2, h1, h2, if_neg (by norm_num : ¬ ((1 : ℚ) / 250 < 0))]
    rfl
  have hu : jsParseFloat (formatCurrency ((1 : ℚ) / 250)) = some 0 := by
    have hfc : formatCurrency ((1 : ℚ) / 250) = "0.00" := by
      rw [formatCurrency, if_neg (by simp [jsIsNaN])]
      exact htf
    rw [hfc]
    have hsh := jsParseFloatL_shape false ['0'] ('.' :: ['0', '0']) ['0', '0']
      (by decide) (by decide) (Or.inr rfl) (by decide) (by intro h; cases h)
    rw [if_neg (by simp : ¬ ((false : Bool) = true))] at hsh
    have hdz : ("0.00" : String).data = [] ++ ['0'] ++ '.' :: ['0', '0'] := rfl
    show jsParseFloatL ("0.00" : String).data = some 0
    rw [hdz, hsh]
    have hite : (if ((false : Bool) = true) then (-1 : ℚ) else 1) = 1 := if_neg (by simp)
    rw [hite]
    have hd1 : digitsToNat ['0'] = 0 := rfl
    have hd2 : digitsToNat ['0', '0'] = 0 := rfl
    rw [hd1, hd2]
    norm_num
  constructor
  · simp only [roundTripProduct, hq, hu]
    norm_num
  · rw [not_le]
    rw [show (0 : ℚ) - 3 * ((1 : ℚ) / 250) = -(3 / 250) by ring, abs_neg,
      abs_of_nonneg (by norm_num : (0 : ℚ) ≤ 3 / 250)]
    norm_num

/-- C7 (amended): the canonical row carries `formatNumber quantity` and
`formatCurrency unitAmount`; for a quantity with a terminating decimal
expansion (at most 1074 fractional digits, as for every double) and a unit
amount that is a whole number of cents, parsing the two strings back and
multiplying reproduces `quantity * unitAmount` exactly — in particular
within one cent. -/
theorem c7_roundtrip_amended (qm : ℤ) (k : ℕ) (uc : ℤ) (hk : k ≤ 1074) :
    (∀ inv : ExtractedInvoice, (formatSingleInvoice inv).map (fun r => (r.Quantity, r.UnitAmount)) =
      inv.lineItems.map fun it => (formatNumber it.quantity, formatCurrency it.unitAmount)) ∧
    roundTripProduct ((qm : ℚ) / 10 ^ k) ((uc : ℚ) / 100) =
      some (((qm : ℚ) / 10 ^ k) * ((uc : ℚ) / 100)) ∧
    ∀ p, roundTripProduct ((qm : ℚ) / 10 ^ k) ((uc : ℚ) / 100) = some p →
      |p - ((qm : ℚ) / 10 ^ k) * ((uc : ℚ) / 100)| ≤ 1 / 100 := by
  have hden : ((qm : ℚ) / 10 ^ k).den ∣ 10 ^ toStringFuel := by
    have hcast : (qm : ℚ) / 10 ^ k = (qm : ℚ) / ((10 ^ k : ℤ) : ℚ) := by push_cast; ring
    have h1 : ((((qm : ℚ) / 10 ^ k).den : ℕ) : ℤ) ∣ (10 ^ k : ℤ) := by
      rw [hcast, ← Rat.divInt_eq_div]
      exact Rat.den_dvd qm (10 ^ k)
    have h2 : ((qm : ℚ) / 10 ^ k).den ∣ 10 ^ k := by exact_mod_cast h1
    exact h2.trans (pow_dvd_pow 10 (le_trans hk (by norm_num [toStringFuel])))
  have hq := parse_formatNumber_den _ hden
  have hu' : jsParseFloat (formatCurrency ((uc : ℚ) / 100)) = some ((uc : ℚ) / 100) := by
    have h : formatCurrency ((uc : ℚ) / 100) = toFixed2 ((uc : ℚ) / 100) := by
      simp [formatCurrency, jsIsNaN]
    rw [h]
    exact jsParseFloat_toFixed2_cents uc
  have hmain : roundTripProduct ((qm : ℚ) / 10 ^ k) ((uc : ℚ) / 100) =
      some (((qm : ℚ) / 10 ^ k) * ((uc : ℚ) / 100)) := by
    simp only [roundTripProduct, hq, hu']
  refine ⟨?_, hmain, ?_⟩
  · intro inv
    simp only [formatSingleInvoice, List.map_map]
    rfl
  · intro p hp
    rw [hmain] at hp
    have hpe : p = ((qm : ℚ) / 10 ^ k) * ((uc : ℚ) / 100) := by
      exact (Option.some.inj hp).symm
    rw [hpe]
    simp

/-- Witness for the amended C7 at quantity 2 and unit amount `$50.00`. -/
theorem c7_roundtrip_witness :
    (0 : ℕ) ≤ 1074 ∧
    roundTripProduct (((2 : ℤ) : ℚ) / 10 ^ (0 : ℕ)) (((5000 : ℤ) : ℚ) / 100) =
      some ((((2 : ℤ) : ℚ) / 10 ^ (0 : ℕ)) * (((5000 : ℤ) : ℚ) / 100)) :=
  ⟨by decide, (c7_roundtrip_amended 2 0 5000 (by decide)).2.1⟩

/-! ### Claim C1 — fingerprint collision on normalized fields -/

/-- C1: for every hash function, two records whose invoice numbers and
contact names agree after lower-casing and trimming, whose invoice-date
strings agree, and whose line-item totals format identically to two
decimals, receive the same fingerprint hash from `createFingerprint` —
their `sourceFile`s are unconstrained and do not enter the hash input. -/
theorem c1_fingerprint_equal_hash (h : String → String) (inv₁ inv₂ : ExtractedInvoice)
    (hnum : jsTrim (jsLower inv₁.invoiceNumber) = jsTrim (jsLower inv₂.invoiceNumber))
    (hname : jsTrim (jsLower inv₁.contactName) = jsTrim (jsLower inv₂.contactName))
    (hdate : inv₁.invoiceDate = inv₂.invoiceDate)
    (htotal : toFixed2 (fingerprintTotal inv₁) = toFixed2 (fingerprintTotal inv₂)) :
    (createFingerprint h inv₁).hash = (createFingerprint h inv₂).hash := by
  simp only [createFingerprint]
  rw [hnum, hname, hdate, htotal]

/-- Witness for C1: the same invoice extracted from two different source
files collides. -/
theorem c1_fingerprint_witness :
    (ExtractedInvoice.mk "INV-001" "15/03/2024" "15/04/2024" "ABC Pty Ltd" none
        [⟨"Service", 2, 50, none, none⟩] "a.pdf" 80 []).sourceFile ≠
      (ExtractedInvoice.mk "INV-001" "15/03/2024" "15/04/2024" "ABC Pty Ltd" none
        [⟨"Service", 2, 50, none, none⟩] "b.pdf" 80 []).sourceFile ∧
    (createFingerprint id (ExtractedInvoice.mk "INV-001" "15/03/2024" "15/04/2024" "ABC Pty Ltd"
        none [⟨"Service", 2, 50, none, none⟩] "a.pdf" 80 [])).hash =
      (createFingerprint id (ExtractedInvoice.mk "INV-001" "15/03/2024" "15/04/2024" "ABC Pty Ltd"
        none [⟨"Service", 2, 50, none, none⟩] "b.pdf" 80 [])).hash :=
  ⟨by decide, c1_fingerprint_equal_hash id _ _ rfl rfl rfl rfl⟩

/-! ### Claim C2 — validity is exactly the tolerance comparison -/

/-- C2: `verifyInvoice` marks a record invalid exactly when an expected
total was recovered from its warnings and the absolute discrepancy exceeds
the configured tolerance; with no recovered expected total the result is
valid with discrepancy 0. -/
theorem c2_verify_isValid (av : AmountVerifier) (inv : ExtractedInvoice) :
    ((verifyInvoice av inv).isValid = false ↔
      ∃ e, extractExpectedTotal inv = some e ∧
        |(verifyInvoice av inv).calculatedTotal - e| > av.toleranceAmount) ∧
    (extractExpectedTotal inv = none →
      (verifyInvoice av inv).isValid = true ∧ (verifyInvoice av inv).discrepancy = 0) := by
  cases hexp : extractExpectedTotal inv with
  | none =>
    constructor
    · simp [verifyInvoice, hexp]
    · intro _
      simp [verifyInvoice, hexp]
  | some e =>
    constructor
    · simp only [verifyInvoice, hexp, Option.isNone_some, Bool.false_or,
        decide_eq_false_iff_not, not_le, Option.some.injEq]
      constructor
      · intro hgt
        exact ⟨e, rfl, hgt⟩
      · rintro ⟨e', he', hgt⟩
        subst he'
        exact hgt
    · intro hnone
      simp [hexp] at hnone

/-- Witness for C2 at a record with no warnings: no expected total is
recovered, so the result is valid with discrepancy 0. -/
theorem c2_verify_witness :
    extractExpectedTotal (ExtractedInvoice.mk "INV-1" "15/03/2024" "15/04/2024" "ABC" none
        [] "a.pdf" 80 []) = none ∧
    (verifyInvoice ⟨1/10, 1/10⟩ (ExtractedInvoice.mk "INV-1" "15/03/2024" "15/04/2024" "ABC" none
        [] "a.pdf" 80 [])).isValid = true ∧
    (verifyInvoice ⟨1/10, 1/10⟩ (ExtractedInvoice.mk "INV-1" "15/03/2024" "15/04/2024" "ABC" none
        [] "a.pdf" 80 [])).discrepancy = 0 :=
  ⟨rfl, (c2_verify_isValid ⟨1/10, 1/10⟩ _).2 rfl⟩

/-! ### Claims C3 and C9 — the calculated total -/

theorem verifyLineItem_lineTotal (item : InvoiceLineItem) (i : ℕ) :
    (verifyLineItem item i).lineTotal = lineTotalPair (item.quantity, item.unitAmount) := rfl

theorem verifyInvoice_details (av : AmountVerifier) (inv : ExtractedInvoice) :
    (verifyInvoice av inv).details = inv.lineItems.enum.map fun p => verifyLineItem p.2 p.1 := rfl

theorem foldl_add_lineTotals (dl : List LineItemVerification) (acc : ℚ) :
    dl.foldl (fun acc v => acc + v.lineTotal) acc =
      acc + (dl.map fun v => v.lineTotal).sum := by
  induction dl generalizing acc with
  | nil => simp
  | cons v t ih =>
    simp only [List.foldl_cons, List.map_cons, List.sum_cons, ih]
    ring

/-- The accumulation loop of `verifyInvoice` adds every line total no matter
which branch of the `hasIssues` conditional runs. -/
theorem foldl_lineTotals (dl : List LineItemVerification) (acc : ℚ) :
    dl.foldl (fun acc v => if v.hasIssues = false then acc + v.lineTotal else acc + v.lineTotal)
      acc = acc + (dl.map fun v => v.lineTotal).sum := by
  have hf : (fun (acc : ℚ) (v : LineItemVerification) =>
      if v.hasIssues = false then acc + v.lineTotal else acc + v.lineTotal) =
      fun acc v => acc + v.lineTotal := by
    funext a v
    exact ite_self _
  rw [hf]
  exact foldl_add_lineTotals dl acc

theorem verifyInvoice_calculatedTotal (av : AmountVerifier) (inv : ExtractedInvoice) :
    (verifyInvoice av inv).calculatedTotal =
      round2 ((inv.lineItems.map fun it => lineTotalPair (it.quantity, it.unitAmount)).sum) := by
  simp only [verifyInvoice]
  rw [foldl_lineTotals, zero_add]
  congr 1
  rw [List.map_map]
  have hfun : ((fun v : LineItemVerification => v.lineTotal) ∘
      fun p : ℕ × InvoiceLineItem => verifyLineItem p.2 p.1) =
      ((fun it : InvoiceLineItem => lineTotalPair (it.quantity, it.unitAmount)) ∘ Prod.snd) := by
    funext p
    exact verifyLineItem_lineTotal p.2 p.1
  rw [hfun, ← List.map_map, List.enum_map_snd]

/-- C3: the calculated total of `verifyInvoice` depends only on the multiset
of `(quantity, unitAmount)` pairs — any two invoices whose line-item pair
lists are permutations of one another get the same calculated total. -/
theorem c3_total_perm_invariant (av : AmountVerifier) (inv₁ inv₂ : ExtractedInvoice)
    (hperm : (inv₁.lineItems.map fun it => (it.quantity, it.unitAmount)).Perm
      (inv₂.lineItems.map fun it => (it.quantity, it.unitAmount))) :
    (verifyInvoice av inv₁).calculatedTotal = (verifyInvoice av inv₂).calculatedTotal := by
  rw [verifyInvoice_calculatedTotal, verifyInvoice_calculatedTotal]
  congr 1
  have h1 : ∀ inv : ExtractedInvoice,
      (inv.lineItems.map fun it => lineTotalPair (it.quantity, it.unitAmount)) =
      (inv.lineItems.map fun it => (it.quantity, it.unitAmount)).map lineTotalPair := by
    intro inv
    rw [List.map_map]
    rfl
  rw [h1, h1]
  exact (hperm.map lineTotalPair).sum_eq

/-- Witness for C3: two concrete invoices with the same two line items in
opposite orders have equal calculated totals. -/
theorem c3_total_perm_witness :
    (verifyInvoice ⟨1/10, 1/10⟩ (ExtractedInvoice.mk "INV-1" "15/03/2024" "15/04/2024" "ABC" none
        [⟨"A", 2, 50, none, none⟩, ⟨"B", 3, 10, none, none⟩] "a.pdf" 80 [])).calculatedTotal =
    (verifyInvoice ⟨1/10, 1/10⟩ (ExtractedInvoice.mk "INV-1" "15/03/2024" "15/04/2024" "ABC" none
        [⟨"B", 3, 10, none, none⟩, ⟨"A", 2, 50, none, none⟩] "a.pdf" 80 [])).calculatedTotal :=
  c3_total_perm_invariant ⟨1/10, 1/10⟩ _ _ (by
    simp only [List.map_cons, List.map_nil]
    exact List.Perm.swap _ _ _)

/-- C9: the calculated total is the rounded sum of every line detail's
`lineTotal`, with one detail per line item — flagged lines are never
excluded from the accumulation. -/
theorem c9_flagged_lines_included (av : AmountVerifier) (inv : ExtractedInvoice) :
    (verifyInvoice av inv).calculatedTotal =
      round2 (((verifyInvoice av inv).details.map fun v => v.lineTotal).sum) ∧
    (verifyInvoice av inv).details.length = inv.lineItems.length := by
  constructor
  · simp only [verifyInvoice]
    rw [foldl_lineTotals, zero_add]
  · rw [verifyInvoice_details, List.length_map, List.enum_length]

/-! ### Claim C5 — header list with column 7 removed -/

/-- C5 as stated is false: dropping column 7 shifts every later column, so
`validateCSVHeaders` reports five errors (a count mismatch plus positions
7 through 10), not exactly one. -/
theorem c5_headers_counterexample :
    ¬ ((validateCSVHeaders ["ContactName", "InvoiceNumber", "InvoiceDate", "DueDate",
        "Description", "Quantity", "AccountCode", "TaxType", "Reference"]).errors.length = 1) := by
  decide

/-- C5 (amended): for the canonical schema with its 7th column removed,
`validateCSVHeaders` returns exactly five errors — one column-count
mismatch and one per shifted position — among them the error naming
position 7 and the expected column name `UnitAmount`. -/
theorem c5_headers_amended :
    (validateCSVHeaders ["ContactName", "InvoiceNumber", "InvoiceDate", "DueDate",
        "Description", "Quantity", "AccountCode", "TaxType", "Reference"]).errors =
      [⟨"Headers", "Expected 10 columns, found 9", none, none⟩,
       ⟨"Headers", "Column 7 should be \"UnitAmount\", found \"AccountCode\"", none, none⟩,
       ⟨"Headers", "Column 8 should be \"AccountCode\", found \"TaxType\"", none, none⟩,
       ⟨"Headers", "Column 9 should be \"TaxType\", found \"Reference\"", none, none⟩,
       ⟨"Headers", "Column 10 should be \"Reference\", found \"missing\"", none, none⟩] ∧
    (validateCSVHeaders ["ContactName", "InvoiceNumber", "InvoiceDate", "DueDate",
        "Description", "Quantity", "AccountCode", "TaxType", "Reference"]).isValid = false := by
  constructor
  · decide
  · decide

/-! ### Claim C8 — confidences of the invoice-number strategies -/

/-- C8 as stated is false: every invoice-number strategy returns the same
fixed confidence 90, so an input matched by the explicit label pattern and
an input matched only by the bare leading `#` pattern are never strictly
ordered. -/
theorem c8_confidence_counterexample :
    ¬ ((extractInvoiceNumber "Invoice Number: A1").confidence >
        (extractInvoiceNumber "#B2").confidence) := by
  decide

/-- C8 (amended): the explicit-label input is matched by the first pattern
and the bare-`#` input only by the fourth, and both results carry the same
fixed confidence 90 — the strategies share one confidence weight instead of
ordering the label pattern above the bare `#` pattern. -/
theorem c8_confidence_amended :
    extractInvoiceNumber "Invoice Number: A1" = ⟨"A1", 90, "regex"⟩ ∧
    extractInvoiceNumber "#B2" = ⟨"B2", 90, "regex"⟩ ∧
    scanPattern p1At "Invoice Number: A1".data = some "A1".data ∧
    scanPattern p1At "#B2".data = none ∧
    scanPattern p2At "#B2".data = none ∧
    scanPattern p3At "#B2".data = none ∧
    scanP4 true "#B2".data = some "B2".data := by
  refine ⟨by decide, by decide, by decide, by decide, by decide, by decide, by decide⟩

/-! ### Claim C4 — the $71.00 misread scenario -/

theorem toFixed2_71 : toFixed2 (71 : ℚ) = "71.00" := by
  have h1 : |(71 : ℚ)| * 100 = ((7100 : ℤ) : ℚ) := by
    rw [abs_of_nonneg (by norm_num : (0 : ℚ) ≤ 71)]
    norm_num
  rw [toFixed2, h1, jsRound_intCast, if_neg (by norm_num : ¬ ((71 : ℚ) < 0))]
  decide

theorem detectOCRMisreads_71 : detectOCRMisreads (71 : ℚ) 2 = [] := by
  simp only [detectOCRMisreads, toFixed2_71]
  rw [if_neg (by decide :
    ¬ (("71.00" : String).data.contains '7' && !("71.00" : String).data.contains '1') = true)]
  have hsfx : ("00.00" : String).data.isSuffixOf ("71.00" : String).data = false := by decide
  rw [hsfx, Bool.false_and, if_neg (by simp)]
  rfl

theorem verifyLineItem_71_issues :
    (verifyLineItem ⟨"Service", 2, 71, none, none⟩ 0).issues = [] ∧
    (verifyLineItem ⟨"Service", 2, 71, none, none⟩ 0).hasIssues = false := by
  have h1 : decide ((2 : ℚ) ≤ 0) = false := decide_eq_false (by norm_num)
  have h2 : decide ((71 : ℚ) > 1000000) = false := decide_eq_false (by norm_num)
  have h3 : decide ((71 : ℚ) < 0) = false := decide_eq_false (by norm_num)
  have h4 : decide ((2 : ℚ) < 0) = false := decide_eq_false (by norm_num)
  constructor
  · simp only [verifyLineItem, jsIsNaN, h1, h2, h3, h4, detectOCRMisreads_71,
      Bool.false_or, Bool.or_false, Bool.false_eq_true, if_false, List.append_nil,
      List.nil_append]
  · simp only [verifyLineItem, jsIsNaN, h1, h2, h3, h4, detectOCRMisreads_71,
      Bool.false_or, Bool.or_false, Bool.false_eq_true, if_false, List.append_nil,
      List.nil_append, List.isEmpty_nil, Bool.not_true, Bool.or_self]

/-- C4 documents a code bug: the comment above the misread check names
`$71.00` → `$11.00` as its target, but `"71.00"` contains the digit `1`, so
the guard `includes('7') && !includes('1')` is false and no advisory is
emitted; the stored unit amount does remain `71.00`. -/
theorem c4_misread_not_emitted :
    detectOCRMisreads (71 : ℚ) 2 = [] ∧
    ((verifyInvoice ⟨1/10, 1/10⟩ (ExtractedInvoice.mk "INV-7" "15/03/2024" "15/04/2024" "ABC"
        none [⟨"Service", 2, 71, none, none⟩] "a.pdf" 80 [])).details.map
      fun v => (v.unitAmount, v.issues)) = [((71 : ℚ), ([] : List String))] ∧
    (verifyInvoice ⟨1/10, 1/10⟩ (ExtractedInvoice.mk "INV-7" "15/03/2024" "15/04/2024" "ABC"
        none [⟨"Service", 2, 71, none, none⟩] "a.pdf" 80 [])).suggestions = [] := by
  obtain ⟨hiss, hhas⟩ := verifyLineItem_71_issues
  have hdet : (verifyInvoice ⟨1/10, 1/10⟩ (ExtractedInvoice.mk "INV-7" "15/03/2024" "15/04/2024"
      "ABC" none [⟨"Service", 2, 71, none, none⟩] "a.pdf" 80 [])).details =
      [verifyLineItem ⟨"Service", 2, 71, none, none⟩ 0] := rfl
  refine ⟨detectOCRMisreads_71, ?_, ?_⟩
  · rw [hdet, List.map_cons, List.map_nil, hiss]
    rfl
  · have hgen : ∀ ct : ℚ, generateSuggestions ⟨1/10, 1/10⟩
        (ExtractedInvoice.mk "INV-7" "15/03/2024" "15/04/2024" "ABC"
          none [⟨"Service", 2, 71, none, none⟩] "a.pdf" 80 [])
        [verifyLineItem ⟨"Service", 2, 71, none, none⟩ 0] ct none 0 = [] := by
      intro ct
      simp only [generateSuggestions, List.filter_cons, hhas]
      simp [if_neg (by norm_num : ¬ ((80 : ℚ) < 70))]
    exact hgen ((verifyInvoice ⟨1/10, 1/10⟩ (ExtractedInvoice.mk "INV-7" "15/03/2024"
      "15/04/2024" "ABC" none [⟨"Service", 2, 71, none, none⟩] "a.pdf" 80 [])).calculatedTotal)

/-! ### Claim C10 — empty fields skip the format checks -/

theorem mem_ite_singleton {c : Prop} [Decidable c] {e x : ValidationError}
    (h : e ∈ (if c then [x] else ([] : List ValidationError))) : e = x := by
  split at h
  · simpa using h
  · exact absurd h (List.not_mem_nil e)

theorem reqFieldErrors_field (row : XeroCSVRow) (i : ℕ) (e : ValidationError)
    (h : e ∈ reqFieldErrors row i) :
    e.field = "ContactName" ∨ e.field = "InvoiceNumber" ∨ e.field = "InvoiceDate" ∨
      e.field = "DueDate" := by
  rw [reqFieldErrors, List.mem_filterMap] at h
  obtain ⟨a, ha, hfa⟩ := h
  have hfield : e.field = a := by
    split at hfa
    · have := Option.some.inj hfa
      rw [← this]
    · exact absurd hfa (by simp)
  rw [hfield]
  simp only [REQUIRED_FIELDS, List.mem_cons, List.not_mem_nil, or_false] at ha
  rcases ha with rfl | rfl | rfl | rfl <;> simp

theorem reqFieldErrors_eq (row : XeroCSVRow) (i : ℕ) :
    reqFieldErrors row i =
      (if getField row "ContactName" = "" || jsTrim (getField row "ContactName") = "" then
        [⟨"ContactName", "Required field " ++ "ContactName" ++ " is empty", some i, none⟩]
      else []) ++
      (if getField row "InvoiceNumber" = "" || jsTrim (getField row "InvoiceNumber") = "" then
        [⟨"InvoiceNumber", "Required field " ++ "InvoiceNumber" ++ " is empty", some i, none⟩]
      else []) ++
      (if getField row "InvoiceDate" = "" || jsTrim (getField row "InvoiceDate") = "" then
        [⟨"InvoiceDate", "Required field " ++ "InvoiceDate" ++ " is empty", some i, none⟩]
      else []) ++
      (if getField row "DueDate" = "" || jsTrim (getField row "DueDate") = "" then
        [⟨"DueDate", "Required field " ++ "DueDate" ++ " is empty", some i, none⟩]
      else []) := by
  rw [reqFieldErrors]
  simp only [REQUIRED_FIELDS, List.filterMap_cons, List.filterMap_nil]
  split_ifs <;> simp

theorem filter_ite_pos (p : ValidationError → Bool) {c : Prop} [Decidable c]
    (x : ValidationError) (hc : c) (hp : p x = true) :
    (if c then [x] else []).filter p = [x] := by
  rw [if_pos hc]
  simp [List.filter_cons, hp]

theorem filter_ite_none (p : ValidationError → Bool) {c : Prop} [Decidable c]
    (x : ValidationError) (hp : p x = false) :
    (if c then [x] else []).filter p = [] := by
  split
  · simp [List.filter_cons, hp]
  · rfl

/-- C10: `validateCSVRow` runs its numeric-parseability and date-format
checks only on non-empty fields.  An empty Quantity or UnitAmount (both
optional columns) produces no error for that column at all, and an empty
InvoiceDate or DueDate produces exactly the required-field error for that
column and never a date-format error. -/
theorem c10_empty_fields_skip_checks (row : XeroCSVRow) (i : ℕ) :
    (row.Quantity = "" → ∀ e ∈ (validateCSVRow row i).errors, e.field ≠ "Quantity") ∧
    (row.UnitAmount = "" → ∀ e ∈ (validateCSVRow row i).errors, e.field ≠ "UnitAmount") ∧
    (row.InvoiceDate = "" → (validateCSVRow row i).errors.filter
        (fun e => e.field = "InvoiceDate") =
      [⟨"InvoiceDate", "Required field InvoiceDate is empty", some i, none⟩]) ∧
    (row.DueDate = "" → (validateCSVRow row i).errors.filter (fun e => e.field = "DueDate") =
      [⟨"DueDate", "Required field DueDate is empty", some i, none⟩]) := by
  have herr : (validateCSVRow row i).errors = reqFieldErrors row i ++ (invDateErrors row i ++
      (dueDateErrors row i ++ (qtyErrors row i ++ uaErrors row i))) := by
    simp [validateCSVRow]
  refine ⟨?_, ?_, ?_, ?_⟩
  · intro hq e he
    rw [herr] at he
    simp only [List.mem_append] at he
    rcases he with hA | hB | hC | hD | hE
    · rcases reqFieldErrors_field row i e hA with h | h | h | h <;> simp [h]
    · simp only [invDateErrors] at hB
      have := mem_ite_singleton hB
      subst this
      simp
    · simp only [dueDateErrors] at hC
      have := mem_ite_singleton hC
      subst this
      simp
    · simp [qtyErrors, hq] at hD
    · simp only [uaErrors] at hE
      have := mem_ite_singleton hE
      subst this
      simp
  · intro hu e he
    rw [herr] at he
    simp only [List.mem_append] at he
    rcases he with hA | hB | hC | hD | hE
    · rcases reqFieldErrors_field row i e hA with h | h | h | h <;> simp [h]
    · simp only [invDateErrors] at hB
      have := mem_ite_singleton hB
      subst this
      simp
    · simp only [dueDateErrors] at hC
      have := mem_ite_singleton hC
      subst this
      simp
    · simp only [qtyErrors] at hD
      have := mem_ite_singleton hD
      subst this
      simp
    · simp [uaErrors, hu] at hE
  · intro hd
    have hgf : getField row "InvoiceDate" = row.InvoiceDate := rfl
    have hB : invDateErrors row i = [] := by simp [invDateErrors, hd]
    have hC : (dueDateErrors row i).filter (fun e => e.field = "InvoiceDate") = [] := by
      simp only [dueDateErrors]
      exact filter_ite_none _ _ (by rfl)
    have hD : (qtyErrors row i).filter (fun e => e.field = "InvoiceDate") = [] := by
      simp only [qtyErrors]
      exact filter_ite_none _ _ (by rfl)
    have hE : (uaErrors row i).filter (fun e => e.field = "InvoiceDate") = [] := by
      simp only [uaErrors]
      exact filter_ite_none _ _ (by rfl)
    rw [herr]
    simp only [List.filter_append, hB, hC, hD, hE, List.filter_nil]
    rw [reqFieldErrors_eq]
    simp only [List.filter_append]
    rw [filter_ite_none _ _ (by rfl), filter_ite_none _ _ (by rfl),
      filter_ite_pos _ _ (by rw [hgf, hd]; simp) (by rfl),
      filter_ite_none _ _ (by rfl)]
    simp
  · intro hd
    have hgf : getField row "DueDate" = row.DueDate := rfl
    have hC : dueDateErrors row i = [] := by simp [dueDateErrors, hd]
    have hB : (invDateErrors row i).filter (fun e => e.field = "DueDate") = [] := by
      simp only [invDateErrors]
      exact filter_ite_none _ _ (by rfl)
    have hD : (qtyErrors row i).filter (fun e => e.field = "DueDate") = [] := by
      simp only [qtyErrors]
      exact filter_ite_none _ _ (by rfl)
    have hE : (uaErrors row i).filter (fun e => e.field = "DueDate") = [] := by
      simp only [uaErrors]
      exact filter_ite_none _ _ (by rfl)
    rw [herr]
    simp only [List.filter_append, hB, hC, hD, hE, List.filter_nil]
    rw [reqFieldErrors_eq]
    simp only [List.filter_append]
    rw [filter_ite_none _ _ (by rfl), filter_ite_none _ _ (by rfl),
      filter_ite_none _ _ (by rfl),
      filter_ite_pos _ _ (by rw [hgf, hd]; simp) (by rfl)]
    simp

/-- Witness for C10 at a concrete row with all four fields empty. -/
theorem c10_empty_fields_witness :
    (∀ e ∈ (validateCSVRow (XeroCSVRow.mk "ABC" "INV-1" "" "" "desc" "" "" "200"
        "GST on Income" "") 1).errors, e.field ≠ "Quantity") ∧
    (validateCSVRow (XeroCSVRow.mk "ABC" "INV-1" "" "" "desc" "" "" "200"
        "GST on Income" "") 1).errors.filter (fun e => e.field = "InvoiceDate") =
      [⟨"InvoiceDate", "Required field InvoiceDate is empty", some 1, none⟩] :=
  ⟨(c10_empty_fields_skip_checks _ 1).1 rfl,
   (c10_empty_fields_skip_checks (XeroCSVRow.mk "ABC" "INV-1" "" "" "desc" "" "" "200"
     "GST on Income" "") 1).2.2.1 rfl⟩

/-! ### Claim C6 — sanitizer idempotence -/

theorem dropWhile_length_le (p : Char → Bool) : ∀ l : List Char, (l.dropWhile p).length ≤ l.length
  | [] => le_refl _
  | a :: t => by
    rw [List.dropWhile_cons]
    split
    · exact le_trans (dropWhile_length_le p t) (Nat.le_succ _)
    · exact le_refl _

theorem dropWhile_head_not (p : Char → Bool) : ∀ (l : List Char) (d : Char) (Z : List Char),
    l.dropWhile p = d :: Z → p d = false
  | [], d, Z, h => by simp at h
  | a :: t, d, Z, h => by
    by_cases hp : p a = true
    · rw [List.dropWhile_cons, if_pos hp] at h
      exact dropWhile_head_not p t d Z h
    · rw [List.dropWhile_cons, if_neg hp] at h
      obtain ⟨rfl, -⟩ : a = d ∧ t = Z := by
        injection h with h1 h2
        exact ⟨h1, h2⟩
      simpa using hp

theorem dropWhile_idem (p : Char → Bool) (l : List Char) :
    (l.dropWhile p).dropWhile p = l.dropWhile p := by
  cases hd : l.dropWhile p with
  | nil => rfl
  | cons d Z =>
    rw [List.dropWhile_cons, if_neg (by simp [dropWhile_head_not p l d Z hd])]

theorem dropWhile_pre_append (p : Char → Bool) : ∀ l : List Char, ∃ k, k ++ l.dropWhile p = l
  | [] => ⟨[], rfl⟩
  | a :: t => by
    by_cases hp : p a = true
    · obtain ⟨k, hk⟩ := dropWhile_pre_append p t
      exact ⟨a :: k, by rw [List.dropWhile_cons, if_pos hp, List.cons_append, hk]⟩
    · exact ⟨[], by rw [List.dropWhile_cons, if_neg hp]; rfl⟩

theorem mem_of_mem_dropWhile (p : Char → Bool) : ∀ (l : List Char) (c : Char),
    c ∈ l.dropWhile p → c ∈ l
  | [], c, h => h
  | a :: t, c, h => by
    rw [List.dropWhile_cons] at h
    split at h
    · exact List.mem_cons_of_mem a (mem_of_mem_dropWhile p t c h)
    · exact h

theorem trimRight_pre_append (X : List Char) : ∃ k, X = jsTrimRight X ++ k := by
  obtain ⟨k, hk⟩ := dropWhile_pre_append isJsWs X.reverse
  refine ⟨k.reverse, ?_⟩
  rw [jsTrimRight]
  conv_lhs => rw [← List.reverse_reverse X, ← hk]
  rw [List.reverse_append]

theorem trimRight_last (X : List Char) (hne : jsTrimRight X ≠ []) :
    ∃ Y c, jsTrimRight X = Y ++ [c] ∧ isJsWs c = false := by
  cases hD : X.reverse.dropWhile isJsWs with
  | nil =>
    rw [jsTrimRight, hD] at hne
    exact absurd rfl hne
  | cons d Z =>
    refine ⟨Z.reverse, d, ?_, dropWhile_head_not _ _ _ _ hD⟩
    rw [jsTrimRight, hD, List.reverse_cons]

theorem trimRight_append_last (Y : List Char) (c : Char) (hc : isJsWs c = false) :
    jsTrimRight (Y ++ [c]) = Y ++ [c] := by
  rw [jsTrimRight, List.reverse_append]
  have h1 : ([c].reverse : List Char) = [c] := rfl
  rw [h1, List.singleton_append, List.dropWhile_cons, if_neg (by simp [hc]),
    List.reverse_cons, List.reverse_reverse]

theorem trimList_head_not_ws (l : List Char) : ∀ c, (jsTrimList l).head? = some c →
    isJsWs c = false := by
  intro c hc
  have hX : (jsTrimLeft l).dropWhile isJsWs = jsTrimLeft l := dropWhile_idem isJsWs l
  obtain ⟨k, hk⟩ := trimRight_pre_append (jsTrimLeft l)
  cases ht : jsTrimList l with
  | nil => rw [ht] at hc; cases hc
  | cons c' R =>
    rw [ht, List.head?_cons] at hc
    obtain rfl : c' = c := Option.some.inj hc
    rw [jsTrimList] at ht
    rw [ht] at hk
    by_contra hws
    rw [Bool.not_eq_false] at hws
    rw [hk, List.cons_append, List.dropWhile_cons, if_pos hws] at hX
    have hlen := congrArg List.length hX
    have hle := dropWhile_length_le isJsWs (R ++ k)
    simp only [List.length_cons] at hlen
    omega

theorem collapseGo_nonws_head (s : Bool) (c : Char) (t : List Char) (hc : isJsWs c = false) :
    collapseGo s (c :: t) = c :: collapseGo false t := by
  simp [collapseGo, hc]

theorem collapseGo_ws_skip (c : Char) (t : List Char) (hc : isJsWs c = true) :
    collapseGo true (c :: t) = collapseGo true t := by
  simp [collapseGo, hc]

theorem collapseGo_ws_emit (c : Char) (t : List Char) (hc : isJsWs c = true) :
    collapseGo false (c :: t) = ' ' :: collapseGo true t := by
  simp [collapseGo, hc]

theorem collapseGo_true_head : ∀ (l : List Char) (c : Char),
    (collapseGo true l).head? = some c → isJsWs c = false
  | [], c, h => by cases h
  | a :: t, c, h => by
    by_cases ha : isJsWs a = true
    · rw [collapseGo_ws_skip a t ha] at h
      exact collapseGo_true_head t c h
    · rw [collapseGo_nonws_head true a t (by simpa using ha), List.head?_cons] at h
      obtain rfl : a = c := Option.some.inj h
      simpa using ha

theorem collapseGo_state_eq (X : List Char) (hX : ∀ c, X.head? = some c → isJsWs c = false) :
    collapseGo true X = collapseGo false X := by
  cases X with
  | nil => rfl
  | cons c t =>
    have hc := hX c rfl
    rw [collapseGo_nonws_head true c t hc, collapseGo_nonws_head false c t hc]

theorem collapse_collapse : ∀ (l : List Char) (s : Bool),
    collapseGo false (collapseGo s l) = collapseGo s l
  | [], _ => rfl
  | a :: t, s => by
    by_cases ha : isJsWs a = true
    · cases s with
      | true =>
        rw [collapseGo_ws_skip a t ha]
        exact collapse_collapse t true
      | false =>
        rw [collapseGo_ws_emit a t ha]
        rw [collapseGo_ws_emit ' ' (collapseGo true t) rfl]
        rw [collapseGo_state_eq (collapseGo true t) (collapseGo_true_head t)]
        rw [collapse_collapse t true]
    · have ha' : isJsWs a = false := by simpa using ha
      rw [collapseGo_nonws_head s a t ha', collapseGo_nonws_head false a _ ha']
      rw [collapse_collapse t false]

theorem collapse_append_last : ∀ (A : List Char) (s : Bool) (c : Char), isJsWs c = false →
    collapseGo s (A ++ [c]) = collapseGo s A ++ [c]
  | [], s, c, hc => by
    rw [List.nil_append, collapseGo_nonws_head s c [] hc]
    rfl
  | a :: A', s, c, hc => by
    by_cases ha : isJsWs a = true
    · cases s with
      | true =>
        rw [List.cons_append, collapseGo_ws_skip a _ ha, collapseGo_ws_skip a A' ha]
        exact collapse_append_last A' true c hc
      | false =>
        rw [List.cons_append, collapseGo_ws_emit a _ ha, collapseGo_ws_emit a A' ha]
        rw [collapse_append_last A' true c hc]
        rfl
    · have ha' : isJsWs a = false := by simpa using ha
      rw [List.cons_append, collapseGo_nonws_head s a _ ha', collapseGo_nonws_head s a A' ha']
      rw [collapse_append_last A' false c hc]
      rfl

theorem collapseGo_mem : ∀ (l : List Char) (s : Bool) (c : Char), c ∈ collapseGo s l →
    c = ' ' ∨ (c ∈ l ∧ isJsWs c = false)
  | [], s, c, h => by cases h
  | a :: t, s, c, h => by
    by_cases ha : isJsWs a = true
    · cases s with
      | true =>
        rw [collapseGo_ws_skip a t ha] at h
        rcases collapseGo_mem t true c h with h' | ⟨h1, h2⟩
        · exact Or.inl h'
        · exact Or.inr ⟨List.mem_cons_of_mem a h1, h2⟩
      | false =>
        rw [collapseGo_ws_emit a t ha] at h
        rcases List.mem_cons.mp h with h' | h'
        · exact Or.inl h'
        · rcases collapseGo_mem t true c h' with h'' | ⟨h1, h2⟩
          · exact Or.inl h''
          · exact Or.inr ⟨List.mem_cons_of_mem a h1, h2⟩
    · have ha' : isJsWs a = false := by simpa using ha
      rw [collapseGo_nonws_head s a t ha'] at h
      rcases List.mem_cons.mp h with h' | h'
      · exact Or.inr ⟨h' ▸ List.mem_cons_self a t, h' ▸ ha'⟩
      · rcases collapseGo_mem t false c h' with h'' | ⟨h1, h2⟩
        · exact Or.inl h''
        · exact Or.inr ⟨List.mem_cons_of_mem a h1, h2⟩

theorem stripCtrl_eq_self (l : List Char) (h : ∀ c ∈ l, isCtrlChar c = false) :
    stripCtrl l = l := by
  rw [stripCtrl]
  refine List.filter_eq_self.mpr ?_
  intro c hc
  simp [h c hc]

theorem mem_of_mem_trimList (l : List Char) (c : Char) (h : c ∈ jsTrimList l) : c ∈ l := by
  rw [jsTrimList, jsTrimRight] at h
  rw [List.mem_reverse] at h
  have h1 := mem_of_mem_dropWhile isJsWs _ _ h
  rw [List.mem_reverse] at h1
  exact mem_of_mem_dropWhile isJsWs l c (by rw [jsTrimLeft] at h1; exact h1)

theorem sanitizeChars_eq (l : List Char) (hl : l ≠ []) :
    sanitizeChars l = stripCtrl (collapseGo false
      (if dangerousStart (jsTrimList l) then '\'' :: jsTrimList l else jsTrimList l)) := by
  simp only [sanitizeChars, collapseWs]
  rw [if_neg hl]

theorem sanitizeChars_idem (l : List Char)
    (h : ∀ c ∈ l, isCtrlChar c = true → isJsWs c = true) :
    sanitizeChars (sanitizeChars l) = sanitizeChars l := by
  by_cases hl : l = []
  · subst hl; rfl
  · rw [sanitizeChars_eq l hl]
    set t := jsTrimList l with htdef
    by_cases ht : t = []
    · rw [ht]
      rfl
    · set p := if dangerousStart t then '\'' :: t else t with hpdef
      obtain ⟨c0, t0, hc0⟩ := List.exists_cons_of_ne_nil ht
      have hc0ws : isJsWs c0 = false := by
        refine trimList_head_not_ws l c0 ?_
        rw [← htdef, hc0]
        rfl
      have htr_ne : jsTrimRight (jsTrimLeft l) ≠ [] := by
        rw [htdef, jsTrimList] at ht
        exact ht
      obtain ⟨Y, cl, hYc, hclws⟩ := trimRight_last (jsTrimLeft l) htr_ne
      have hYc' : t = Y ++ [cl] := by
        rw [htdef, jsTrimList]
        exact hYc
      have hp_cases : (p = '\'' :: t) ∨ (p = t ∧ dangerousStart t = false) := by
        rw [hpdef]
        by_cases hd : dangerousStart t = true
        · exact Or.inl (if_pos hd)
        · refine Or.inr ⟨if_neg hd, ?_⟩
          simpa using hd
      have hhead : ∃ ch prest, p = ch :: prest ∧ isJsWs ch = false ∧
          (∀ X : List Char, dangerousStart (ch :: X) = false) := by
        rcases hp_cases with hp1 | ⟨hp2, hd⟩
        · exact ⟨'\'', t, hp1, rfl, fun X => rfl⟩
        · refine ⟨c0, t0, by rw [hp2, hc0], hc0ws, ?_⟩
          intro X
          have h1 : dangerousStart (c0 :: X) = dangerousStart (c0 :: t0) := rfl
          rw [h1, ← hc0, hd]
      have hplast : ∃ P, p = P ++ [cl] := by
        rcases hp_cases with hp1 | ⟨hp2, _⟩
        · exact ⟨'\'' :: Y, by rw [hp1, hYc', List.cons_append]⟩
        · exact ⟨Y, by rw [hp2, hYc']⟩
      obtain ⟨ch, prest, hpc, hchws, hchdg⟩ := hhead
      obtain ⟨P, hPl⟩ := hplast
      have hr_eq : collapseGo false p = collapseGo false P ++ [cl] := by
        rw [hPl]
        exact collapse_append_last P false cl hclws
      have hr_head : collapseGo false p = ch :: collapseGo false prest := by
        rw [hpc]
        exact collapseGo_nonws_head false ch prest hchws
      have hchars : ∀ c ∈ collapseGo false p, isCtrlChar c = false := by
        intro c hcmem
        rcases collapseGo_mem p false c hcmem with rfl | ⟨hcp, hcws⟩
        · rfl
        · have hcl : c = '\'' ∨ c ∈ l := by
            rcases hp_cases with hp1 | ⟨hp2, _⟩
            · rw [hp1] at hcp
              rcases List.mem_cons.mp hcp with h' | h'
              · exact Or.inl h'
              · exact Or.inr (mem_of_mem_trimList l c (htdef ▸ h'))
            · rw [hp2] at hcp
              exact Or.inr (mem_of_mem_trimList l c (htdef ▸ hcp))
          rcases hcl with rfl | hcl
          · rfl
          · by_contra hctrl
            rw [Bool.not_eq_false] at hctrl
            rw [h c hcl hctrl] at hcws
            cases hcws
      have hstrip : stripCtrl (collapseGo false p) = collapseGo false p :=
        stripCtrl_eq_self _ hchars
      rw [hstrip]
      have hrne : collapseGo false p ≠ [] := by
        rw [hr_head]
        simp
      rw [sanitizeChars_eq _ hrne]
      have htrimleft : jsTrimLeft (collapseGo false p) = collapseGo false p := by
        rw [jsTrimLeft, hr_head, List.dropWhile_cons, if_neg (by simp [hchws])]
      have htrimright : jsTrimRight (collapseGo false p) = collapseGo false p := by
        rw [hr_eq]
        exact trimRight_append_last _ _ hclws
      have htrim : jsTrimList (collapseGo false p) = collapseGo false p := by
        rw [jsTrimList, htrimleft, htrimright]
      rw [htrim]
      have hdg : dangerousStart (collapseGo false p) = false := by
        rw [hr_head]
        exact hchdg _
      rw [if_neg (by rw [hdg]; simp)]
      rw [collapse_collapse p false]
      exact hstrip

/-- C6 as stated is false: control characters are stripped only after
whitespace collapsing and the formula guard, so a leading `\x01` first
shields a `=` from the guard and then disappears, making the second pass
add the quote the first pass skipped. -/
theorem c6_sanitize_counterexample :
    sanitizeField (sanitizeField ⟨[Char.ofNat 1, '=', '1']⟩) ≠
      sanitizeField ⟨[Char.ofNat 1, '=', '1']⟩ := by
  decide

/-- C6 (amended): the sanitizer is idempotent on every string whose control
characters (`\x00`-`\x1F`, `\x7F`) are all whitespace (tab, LF, VT, FF,
CR) — i.e. whenever the final control-strip pass has nothing left to remove
that the whitespace collapse did not already normalize. -/
theorem c6_sanitize_amended (s : String)
    (h : ∀ c ∈ s.data, isCtrlChar c = true → isJsWs c = true) :
    sanitizeField (sanitizeField s) = sanitizeField s := by
  show (⟨sanitizeChars (sanitizeChars s.data)⟩ : String) = ⟨sanitizeChars s.data⟩
  exact congrArg String.mk (sanitizeChars_idem s.data h)

/-- Witness for the amended C6 on a string with leading, trailing and
internal whitespace and a dangerous first character. -/
theorem c6_sanitize_witness :
    (∀ c ∈ ("  =hello   world " : String).data, isCtrlChar c = true → isJsWs c = true) ∧
    sanitizeField (sanitizeField "  =hello   world ") = sanitizeField "  =hello   world " :=
  ⟨by decide, c6_sanitize_amended _ (by decide)⟩

end BulkInvoice
